import Mathlib

/-!
A shallow embedding of the Anchor bLuna liquidation-pool vault contract
(`src/contract.rs` together with `src/state.rs`), the valuation,
share-accounting and bid-lifecycle subsystem of the repository.

Conventions of the embedding:
* `Uint128` quantities are modelled as `Nat`; the checked/panicking
  arithmetic of `cosmwasm_std::Uint128` (which aborts the whole invocation
  on overflow, underflow or division by zero) is modelled by the fallible
  operations `uadd`, `usub`, `umul`, `udiv` returning `Except Err Nat`.
  `Uint128::try_from` on a `Uint256` value is `toU128`.
* `Decimal256` oracle rates are modelled by their atomics (`rate`), so that
  `Uint256::from(b).mul(price)` becomes `b * rate / E18` (floor).
* `Timestamp` is modelled as nanoseconds (`Nat`); `plus_seconds` is
  `plusSeconds`.
* Storage maps (`BALANCES`, `PERMISSIONS`, `LAST_DEPOSIT`) are association
  lists keyed by the (canonicalised) address, modelled as `String`.
  `CLAIM_LIST` is a `Map<U32Key, TokenRecord>` whose keys are only ever
  created as `last key + 1` and iterated in ascending order, so it is
  modelled as a FIFO `List TokenRecord` (append at the back, consume from
  the front, in-place update of the first surviving record).
* The unbounded pagination `loop`s over `BidsByUser` are modelled by
  fuelled recursion; the handlers invoke them with fuel `bids.length + 1`,
  which is provably sufficient whenever the external queue returns the
  bids in strictly ascending `idx` order (its documented behaviour).
  Exhausted fuel yields the error `Err.fuel`, modelling divergence.
* A failed invocation (error) commits nothing: the handlers return
  `Except Err (Storage × List Msg)` and the caller only observes the
  final value, which models the host's all-or-nothing semantics.
-/

/-- Errors of the contract (`ContractError` variants used by
`src/contract.rs`, plus the cosmwasm-level aborts: `std` for generic
storage/query errors, `overflow` for panicking/checked `Uint128`
arithmetic, `conversionOverflow` for `Uint128::try_from` failures, and
`fuel` for divergence of an unbounded pagination loop). -/
inductive Err where
  | std
  | overflow
  | conversionOverflow
  | unauthorized
  | insufficient
  | invalidate
  | locked
  | paused
  | divideByZero
  | fuel
deriving DecidableEq, Repr

/-- 2^128, the exclusive upper bound of `Uint128`. -/
def UMAX : Nat := 2 ^ 128

/-- `Uint128` addition (panics on overflow, aborting the invocation). -/
def uadd (a b : Nat) : Except Err Nat :=
  if a + b < UMAX then .ok (a + b) else .error .overflow

/-- `Uint128` subtraction / `checked_sub` (underflow aborts). -/
def usub (a b : Nat) : Except Err Nat :=
  if b ≤ a then .ok (a - b) else .error .overflow

/-- `Uint128` multiplication / `checked_mul` (overflow aborts). -/
def umul (a b : Nat) : Except Err Nat :=
  if a * b < UMAX then .ok (a * b) else .error .overflow

/-- `Uint128` division (division by zero aborts). -/
def udiv (a b : Nat) : Except Err Nat :=
  if b = 0 then .error .divideByZero else .ok (a / b)

/-- `Uint128::try_from` on a wider value (`ConversionOverflow` on values
that do not fit). -/
def toU128 (a : Nat) : Except Err Nat :=
  if a < UMAX then .ok a else .error .conversionOverflow

/-- Atomics of `Decimal256.one`: rates are fixed-point with 18 decimals. -/
def E18 : Nat := 10 ^ 18

/-- `Timestamp::plus_seconds` on a nanosecond timestamp. -/
def plusSeconds (t s : Nat) : Nat := t + s * 1000000000

/-- `LOCK_PERIOD` from `src/state.rs`: 14 days, in seconds. -/
def LOCK_PERIOD : Nat := 14 * 24 * 60 * 60

/-- Modelled from the spec: the withdrawal cooldown constant
`WITHDRAW_LOCK` is imported by `src/contract.rs` from the state module but
its definition is absent from the provided `src/state.rs`; the spec only
calls it "a cooldown window" and the repository's tests advance block time
by 3601 seconds before withdrawing, so one hour is used.  Every claim
about the cooldown is relative to the constant, never to its value. -/
def WITHDRAW_LOCK : Nat := 3600

/-- A bid of the external liquidation queue (`BidResponse`), restricted to
the fields the contract reads. -/
structure Bid where
  idx : Nat
  amount : Nat
  pending_liquidated_collateral : Nat
  wait_end : Option Nat
deriving DecidableEq, Repr

/-- A time-locked claimed-collateral record (`TokenRecord` in
`src/state.rs`). -/
structure TokenRecord where
  amount : Nat
  timestamp : Nat
deriving DecidableEq, Repr

/-- `State` in `src/state.rs` as used by `src/contract.rs` (the provided
`state.rs` is from an earlier evolution and lacks `swap_wallet`, which
`contract.rs` reads and writes). -/
structure State where
  owner : String
  total_supply : Nat
  locked_b_luna : Nat
  swap_wallet : String
  paused : Bool
deriving DecidableEq, Repr

/-- The whole persistent storage of the contract. -/
structure Storage where
  state : State
  balances : List (String × Nat)
  permissions : List (String × Bool)
  lastDeposit : List (String × Nat)
  claimList : List TokenRecord
deriving DecidableEq, Repr

/-- A native coin attached to a message. -/
structure Coin where
  denom : String
  amount : Nat
deriving DecidableEq, Repr

/-- The data an invocation can observe through the querier: the vault's
idle uusd bank balance, its idle bLuna cw20 balance, the full bid list of
the external liquidation queue, and the oracle rate (atomics). -/
structure Querier where
  contractUsd : Nat
  contractBLuna : Nat
  bids : List Bid
  rate : Nat
deriving DecidableEq, Repr

/-- Outgoing commands appended to the response by the handlers. -/
inductive Msg where
  | retract (bid_idx : Nat) (amount : Option Nat)
  | bankSend (toAddr : String) (amount : Nat)
  | submitBid (amount : Nat) (premium_slot : Nat)
  | activateBids
  | claimLiquidations
  | swapRouter (amount : Nat) (toAddr : Option String)
  | sendWallet (wallet : String) (amount : Nat) (recipient : String)
deriving DecidableEq, Repr

/-- Lookup in the `BALANCES` map (`unwrap_or_default`). -/
def lookupBal : List (String × Nat) → String → Nat
  | [], _ => 0
  | (k, v) :: rest, key => if k = key then v else lookupBal rest key

/-- Write a balance (replace the first entry with the key, or append). -/
def setBal : List (String × Nat) → String → Nat → List (String × Nat)
  | [], key, v => [(key, v)]
  | (k, w) :: rest, key, v =>
      if k = key then (k, v) :: rest else (k, w) :: setBal rest key v

/-- Sum of all stored share balances. -/
def sumBal : List (String × Nat) → Nat
  | [] => 0
  | (_, v) :: rest => v + sumBal rest

/-- Lookup in the `PERMISSIONS` map (`unwrap_or(submit_bid: false)`). -/
def lookupPerm : List (String × Bool) → String → Bool
  | [], _ => false
  | (k, v) :: rest, key => if k = key then v else lookupPerm rest key

/-- Write a permission entry. -/
def setPerm : List (String × Bool) → String → Bool → List (String × Bool)
  | [], key, v => [(key, v)]
  | (k, w) :: rest, key, v =>
      if k = key then (k, v) :: rest else (k, w) :: setPerm rest key v

/-- Remove a permission entry. -/
def removePerm : List (String × Bool) → String → List (String × Bool)
  | [], _ => []
  | (k, w) :: rest, key =>
      if k = key then rest else (k, w) :: removePerm rest key

/-- Lookup in the `LAST_DEPOSIT` map (`may_load`). -/
def lookupTime : List (String × Nat) → String → Option Nat
  | [], _ => none
  | (k, v) :: rest, key => if k = key then some v else lookupTime rest key

/-- Write a last-deposit timestamp. -/
def setTime : List (String × Nat) → String → Nat → List (String × Nat)
  | [], key, v => [(key, v)]
  | (k, w) :: rest, key, v =>
      if k = key then (k, v) :: rest else (k, w) :: setTime rest key v

/-- Sum of the amounts in a lock-queue segment. -/
def sumClaim : List TokenRecord → Nat
  | [] => 0
  | c :: rest => c.amount + sumClaim rest

/-- Modelled from the spec, §6 external interfaces: one `BidsByUser` page
of the external liquidation queue — the bids with identifier strictly
greater than the cursor, in ascending `idx` order, truncated to the page
limit of 31 used by every loop in `src/contract.rs`. -/
def bidsByUser (bids : List Bid) (startAfter : Nat) : List Bid :=
  (bids.filter (fun b => startAfter < b.idx)).take 31

/-- Default bid used to totalise `bids.last().unwrap()` (only read when
the page has exactly 31 entries, hence is nonempty). -/
def defaultBid : Bid := ⟨0, 0, 0, none⟩

/-- Identifier of the last bid of a page (`res.bids.last().unwrap().idx`). -/
def lastIdx (page : List Bid) : Nat := (page.getLastD defaultBid).idx

/-- One page of the valuation aggregation: for each bid,
`usd_balance += Uint128::try_from(item.amount)?` and
`b_luna_balance += Uint128::try_from(item.pending_liquidated_collateral)?`
(`src/contract.rs`, the loop bodies of `deposit`, `withdraw_ust` and
`query_total_cap`). -/
def sumPage : List Bid → Nat → Nat → Except Err (Nat × Nat)
  | [], u, b => .ok (u, b)
  | x :: xs, u, b => do
      let a ← toU128 x.amount
      let u' ← uadd u a
      let c ← toU128 x.pending_liquidated_collateral
      let b' ← uadd b c
      sumPage xs u' b'

/-- The paginated valuation loop shared by `deposit`, `withdraw_ust` and
`query_total_cap`: query a page after the cursor, accumulate, stop when a
page is shorter than the limit 31, otherwise continue after the last seen
identifier. -/
def sumBidsLoop (bids : List Bid) : Nat → Nat → Nat → Nat → Except Err (Nat × Nat)
  | 0, _, _, _ => .error .fuel
  | fuel + 1, s, u, b => do
      let page := bidsByUser bids s
      let (u', b') ← sumPage page u b
      if page.length < 31 then .ok (u', b')
      else sumBidsLoop bids fuel (lastIdx page) u' b'

/-- One page of the pending-collateral aggregation
(`claim_liquidation` and the claim branch of `withdraw_ust`):
`b_luna_balance += Uint128::try_from(item.pending_liquidated_collateral)?`. -/
def sumPendPage : List Bid → Nat → Except Err Nat
  | [], b => .ok b
  | x :: xs, b => do
      let c ← toU128 x.pending_liquidated_collateral
      let b' ← uadd b c
      sumPendPage xs b'

/-- The paginated pending-collateral loop. -/
def sumPendLoop (bids : List Bid) : Nat → Nat → Nat → Except Err Nat
  | 0, _, _ => .error .fuel
  | fuel + 1, s, b => do
      let page := bidsByUser bids s
      let b' ← sumPendPage page b
      if page.length < 31 then .ok b'
      else sumPendLoop bids fuel (lastIdx page) b'

/-- The valuation of `src/contract.rs` (identical inline code in
`deposit`, `withdraw_ust` and `query_total_cap`): aggregate idle balances
with the paginated bid list, convert the collateral side with the oracle
rate, and return the stable-denominated total cap together with the
aggregated bLuna balance. -/
def valuation (q : Querier) (usd0 bluna0 : Nat) : Except Err (Nat × Nat) := do
  let (usd, bluna) ← sumBidsLoop q.bids (q.bids.length + 1) 0 usd0 bluna0
  let v ← toU128 (bluna * q.rate / E18)
  let tc ← uadd v usd
  .ok (tc, bluna)

/-- The lock-queue walk of `unlock` (and of the first unlock pass inside
`withdraw_ust`): iterate the records in ascending key order, accumulate
and drop every leading record with
`claim.timestamp.plus_seconds(LOCK_PERIOD) <= env.block.time`, and stop at
the first record that is not yet matured.  Returns the accumulated amount
and the surviving queue. -/
def maturedScan (now : Nat) : Nat → List TokenRecord → Except Err (Nat × List TokenRecord)
  | acc, [] => .ok (acc, [])
  | acc, c :: cs =>
      if plusSeconds c.timestamp LOCK_PERIOD ≤ now then do
        let acc' ← uadd acc c.amount
        maturedScan now acc' cs
      else .ok (acc, c :: cs)

/-- The second unlock walk of `withdraw_ust` ("unlock again",
`src/contract.rs:508-541`): consume lock records from the front against
the remaining `b_luna_withdraw`; a record not larger than the remainder is
removed whole, the first larger record is shrunk in place, and the walk
stops as soon as the remainder reaches zero.  Returns the surviving queue
and the total amount unlocked. -/
def consume : List TokenRecord → Nat → (List TokenRecord × Nat)
  | [], _ => ([], 0)
  | c :: cs, bw =>
      if c.amount ≤ bw then
        if bw - c.amount = 0 then (cs, c.amount)
        else
          let (l, u) := consume cs (bw - c.amount)
          (l, c.amount + u)
      else ({ c with amount := c.amount - bw } :: cs, bw)

/-- One page of the bid-retraction loop of `withdraw_ust`
(`src/contract.rs:354-377`): a bid whose pending amount is strictly below
the remaining shortfall is retracted in full (`amount: None`) and the
shortfall reduced; the first bid that can absorb the remaining shortfall
is retracted for exactly that remainder (`amount: Some(..)`) and the walk
stops. -/
def retractPage : List Bid → Nat → List Msg → Except Err (List Msg × Nat)
  | [], rem, acc => .ok (acc, rem)
  | b :: bs, rem, acc =>
      if b.amount < rem then do
        let a ← toU128 b.amount
        retractPage bs (rem - a) (acc ++ [Msg.retract b.idx none])
      else .ok (acc ++ [Msg.retract b.idx (some rem)], 0)

/-- The paginated bid-retraction loop of `withdraw_ust`: stops when the
shortfall is exhausted or a page is shorter than the limit 31. -/
def retractLoop (bids : List Bid) : Nat → Nat → Nat → List Msg → Except Err (List Msg × Nat)
  | 0, _, _, _ => .error .fuel
  | fuel + 1, s, rem, acc => do
      let page := bidsByUser bids s
      let (acc', rem') ← retractPage page rem acc
      if rem' = 0 ∨ page.length < 31 then .ok (acc', rem')
      else retractLoop bids fuel (lastIdx page) rem' acc'

/-- `instantiate` (`src/contract.rs:36-63`): zero supply, nothing locked,
not paused, and the owner is granted the bid-submission permission. -/
def instantiateSt (owner swapWallet : String) : Storage :=
  { state :=
      { owner := owner
        total_supply := 0
        locked_b_luna := 0
        swap_wallet := swapWallet
        paused := false }
    balances := []
    permissions := [(owner, true)]
    lastDeposit := []
    claimList := [] }

/-- `deposit` (`src/contract.rs:102-191`).  Exactly one attached coin, of
denom `uusd` and non-zero, vault not paused; record the deposit time;
value the vault with the attached amount subtracted from the queried
idle balance; mint `amount` shares at bootstrap, otherwise
`amount * total_supply / total_cap` (floor) guarded by an explicit
divide-by-zero check. -/
def deposit (q : Querier) (now : Nat) (sender : String) (funds : List Coin)
    (st : Storage) : Except Err (Storage × List Msg) := do
  if funds.length ≠ 1 then throw .invalidate
  let c := funds.headD ⟨"", 0⟩
  if c.denom ≠ "uusd" ∨ c.amount = 0 then throw .invalidate
  if st.state.paused then throw .paused
  let st := { st with lastDeposit := setTime st.lastDeposit sender now }
  let usd0 ← usub q.contractUsd c.amount
  let (total_cap, _) ← valuation q usd0 q.contractBLuna
  let share ←
    if st.state.total_supply ≠ 0 then
      if total_cap = 0 then throw .divideByZero
      else do
        let m ← umul c.amount st.state.total_supply
        pure (m / total_cap)
    else pure c.amount
  let supply' ← uadd st.state.total_supply share
  let bal' ← uadd (lookupBal st.balances sender) share
  .ok ({ st with
          state.total_supply := supply'
          balances := setBal st.balances sender bal' }, [])

/-- `submit_bid` (`src/contract.rs:193-234`): permission-gated; issues the
external submit command when the amount is non-zero and covered by the
idle uusd balance, otherwise fails as insufficient. -/
def submit_bid (q : Querier) (sender : String) (amount premiumSlot : Nat)
    (st : Storage) : Except Err (Storage × List Msg) := do
  if ¬lookupPerm st.permissions sender then throw .unauthorized
  if amount ≠ 0 ∧ amount ≤ q.contractUsd then
    .ok (st, [Msg.submitBid amount premiumSlot])
  else throw .insufficient

/-- `activate_bid` (`src/contract.rs:236-247`): unconditionally issues the
activate-all command. -/
def activate_bid (st : Storage) : Except Err (Storage × List Msg) :=
  .ok (st, [Msg.activateBids])

/-- The bLuna quantity `withdraw_ust` decides to source from collateral
(`src/contract.rs:391-393`):
`b_luna_balance * share * usd_balance / withdraw_cap
   / (total_supply - share * (withdraw_cap - usd_balance) / withdraw_cap)`,
evaluated on the already-decremented total supply. -/
def computeBwTarget (blunaTotal share rem withdrawCap supply : Nat) : Except Err Nat := do
  let p1 ← umul blunaTotal share
  let p2 ← umul p1 rem
  let q1 ← udiv p2 withdrawCap
  let d1 ← usub withdrawCap rem
  let inner ← umul share d1
  let inner2 ← udiv inner withdrawCap
  let denom ← usub supply inner2
  udiv q1 denom

/-- The first unlock pass inside `withdraw_ust`
(`src/contract.rs:394-412`): remove the matured prefix of the lock queue
and, when anything matured, decrement `locked_b_luna`. -/
def tailUnlockPass (now : Nat) (st : Storage) : Except Err Storage := do
  let (u1, rest1) ← maturedScan now 0 st.claimList
  let st := { st with claimList := rest1 }
  if u1 ≠ 0 then do
    let l ← usub st.state.locked_b_luna u1
    pure { st with state.locked_b_luna := l }
  else pure st

/-- The claim-liquidation branch inside `withdraw_ust`
(`src/contract.rs:452-542`): lock the aggregate pending collateral under a
fresh record, issue claim-all plus the transfer through the swap wallet,
then run the second unlock pass (`consume`) against the remaining target
and decrement `locked_b_luna` by what it unlocked. -/
def withdrawTailClaim (q : Querier) (now : Nat) (sender : String)
    (st : Storage) (bw : Nat) (msgs1 : List Msg) :
    Except Err (Storage × List Msg) := do
  let pend ← sumPendLoop q.bids (q.bids.length + 1) 0 0
  let st := { st with claimList := st.claimList ++ [TokenRecord.mk pend now] }
  let l ← uadd st.state.locked_b_luna pend
  let st := { st with state.locked_b_luna := l }
  let (rest2, u2) := consume st.claimList bw
  let st := { st with claimList := rest2 }
  let st ←
    if u2 ≠ 0 then do
      let l2 ← usub st.state.locked_b_luna u2
      pure { st with state.locked_b_luna := l2 }
    else pure st
  .ok (st, msgs1 ++ [Msg.claimLiquidations,
                     Msg.sendWallet st.state.swap_wallet bw sender])

/-- The collateral-sourcing tail of `withdraw_ust`
(`src/contract.rs:390-543`), entered when the retraction loop exhausted
the bid list with a non-zero shortfall remainder `rem`: compute the bLuna
target, run the first unlock pass, swap the free bLuna (idle balance minus
locked) through the router to the withdrawer up to the target, and if that
does not cover the target, claim and lock pending collateral via
`withdrawTailClaim`. -/
def withdrawTail (q : Querier) (now : Nat) (sender : String) (share : Nat)
    (st : Storage) (withdrawCap rem blunaTotal blunaResp : Nat) :
    Except Err (Storage × List Msg) := do
  let bw0 ← computeBwTarget blunaTotal share rem withdrawCap st.state.total_supply
  let st ← tailUnlockPass now st
  let swapAmount ← usub blunaResp st.state.locked_b_luna
  let (msgs1, bw) :=
    if swapAmount ≠ 0 then
      if bw0 ≤ swapAmount then ([Msg.swapRouter bw0 (some sender)], 0)
      else ([Msg.swapRouter swapAmount (some sender)], bw0 - swapAmount)
    else ([], bw0)
  if bw ≠ 0 then withdrawTailClaim q now sender st bw msgs1
  else .ok (st, msgs1)

/-- The body of `withdraw_ust` after the zero-share and cooldown guards
(`src/contract.rs:269-551`): burn the shares (checked balance subtraction,
then supply decrement), value the vault, pay
`total_cap * share / total_supply` directly when the idle uusd balance
covers it, otherwise retract bids toward the shortfall, append the full
payout transfer, and source any remainder from collateral via
`withdrawTail`. -/
def withdrawBody (q : Querier) (now : Nat) (sender : String) (share : Nat)
    (st : Storage) : Except Err (Storage × List Msg) := do
  let bal' ← usub (lookupBal st.balances sender) share
  let st := { st with balances := setBal st.balances sender bal' }
  let uusd := q.contractUsd
  let (total_cap, bluna) ← valuation q uusd q.contractBLuna
  let prod ← umul total_cap share
  let withdrawCap ← udiv prod st.state.total_supply
  let supply' ← usub st.state.total_supply share
  let st := { st with state.total_supply := supply' }
  if withdrawCap ≤ uusd then
    .ok (st, [Msg.bankSend sender withdrawCap])
  else do
    let rem0 ← usub withdrawCap uusd
    let (rmsgs, rem) ← retractLoop q.bids (q.bids.length + 1) 0 rem0 []
    let base := rmsgs ++ [Msg.bankSend sender withdrawCap]
    if rem ≠ 0 then
      let (st2, tmsgs) ← withdrawTail q now sender share st withdrawCap rem bluna q.contractBLuna
      .ok (st2, base ++ tmsgs)
    else
      .ok (st, base)

/-- `withdraw_ust` (`src/contract.rs:249-552`): reject a zero share;
reject while the cooldown window since the last deposit has not passed;
burn the shares (checked balance subtraction, then supply decrement);
value the vault; pay `total_cap * share / total_supply` directly when the
idle uusd balance covers it, otherwise retract bids toward the shortfall
and append the full payout transfer, sourcing any remainder from
collateral via `withdrawTail`. -/
def withdraw_ust (q : Querier) (now : Nat) (sender : String) (share : Nat)
    (st : Storage) : Except Err (Storage × List Msg) := do
  if share = 0 then throw .invalidate
  match lookupTime st.lastDeposit sender with
  | some ts => if plusSeconds ts WITHDRAW_LOCK ≥ now then throw .locked
  | none => pure ()
  withdrawBody q now sender share st

/-- `claim_liquidation` (`src/contract.rs:554-614`): aggregate the pending
liquidated collateral over all paginated bids; fail as insufficient when
it is zero; otherwise append a lock record stamped with the current block
time, raise `locked_b_luna`, and issue the external claim-all command. -/
def claim_liquidation (q : Querier) (now : Nat) (st : Storage) :
    Except Err (Storage × List Msg) := do
  let pend ← sumPendLoop q.bids (q.bids.length + 1) 0 0
  if pend = 0 then throw .insufficient
  let st := { st with claimList := st.claimList ++ [TokenRecord.mk pend now] }
  let l ← uadd st.state.locked_b_luna pend
  .ok ({ st with state.locked_b_luna := l }, [Msg.claimLiquidations])

/-- `transfer_ownership` (`src/contract.rs:616-646`): owner-only; removes
the old owner's permission entry, grants the new owner the submit-bid
permission, and moves the owner identity. -/
def transfer_ownership (sender newOwner : String) (st : Storage) :
    Except Err (Storage × List Msg) := do
  if st.state.owner ≠ sender then throw .unauthorized
  let perms := setPerm (removePerm st.permissions st.state.owner) newOwner true
  .ok ({ st with state.owner := newOwner, permissions := perms }, [])

/-- `unlock` (`src/contract.rs:648-675`): walk the lock queue from the
front, removing every leading matured record; fail as insufficient when
the matured amount is zero; otherwise decrement `locked_b_luna` by it. -/
def unlock (now : Nat) (st : Storage) : Except Err (Storage × List Msg) := do
  let (unlocked, rest) ← maturedScan now 0 st.claimList
  if unlocked = 0 then throw .insufficient
  let l ← usub st.state.locked_b_luna unlocked
  .ok ({ st with claimList := rest, state.locked_b_luna := l }, [])

/-- `set_permission` (`src/contract.rs:676-717`), transcribed exactly as
written: owner-only; loads the *target* address's current permission and
rejects a redundant write; but then removes or re-saves the *old*
permission under the *sender's* key. -/
def set_permission (sender address : String) (newPermission : Bool)
    (st : Storage) : Except Err (Storage × List Msg) := do
  if st.state.owner ≠ sender then throw .unauthorized
  let permission := lookupPerm st.permissions address
  if permission = newPermission then throw .invalidate
  let perms :=
    if permission = false then removePerm st.permissions sender
    else setPerm st.permissions sender permission
  .ok ({ st with permissions := perms }, [])

/-- `swap` (`src/contract.rs:718-764`): swap the idle bLuna in excess of
the locked amount through the router; fail as insufficient when that
excess is zero. -/
def swap (q : Querier) (st : Storage) : Except Err (Storage × List Msg) := do
  let swapAmount ← usub q.contractBLuna st.state.locked_b_luna
  if swapAmount = 0 then throw .insufficient
  .ok (st, [Msg.swapRouter swapAmount none])

/-- `pause_resume` (`src/contract.rs:766-780`): owner-only; rejects a
redundant toggle. -/
def pause_resume (sender : String) (pause : Bool) (st : Storage) :
    Except Err (Storage × List Msg) := do
  if st.state.owner ≠ sender then throw .unauthorized
  if st.state.paused = pause then throw .invalidate
  .ok ({ st with state.paused := pause }, [])

/-- `set_swap_wallet` (`src/contract.rs:782-798`): owner-only. -/
def set_swap_wallet (sender address : String) (st : Storage) :
    Except Err (Storage × List Msg) := do
  if st.state.owner ≠ sender then throw .unauthorized
  .ok ({ st with state.swap_wallet := address }, [])

/-- `query_total_cap` (`src/contract.rs:842-884`): the paginated
valuation, straight from the querier — it takes no storage at all, which
is the no-mutation guarantee of this read-only query. -/
def query_total_cap (q : Querier) : Except Err Nat := do
  let (tc, _) ← valuation q q.contractUsd q.contractBLuna
  .ok tc

/-! Reduction lemmas for the `Except Err` monad, and exact
characterisations of the checked arithmetic operations. -/

@[simp] theorem ok_bind {α β : Type} (a : α) (f : α → Except Err β) :
    (Except.ok a >>= f) = f a := rfl

@[simp] theorem error_bind {α β : Type} (e : Err) (f : α → Except Err β) :
    ((Except.error e : Except Err α) >>= f) = .error e := rfl

@[simp] theorem throw_eq {α : Type} (e : Err) : (throw e : Except Err α) = .error e := rfl

@[simp] theorem pure_eq {α : Type} (a : α) : (pure a : Except Err α) = .ok a := rfl

theorem uadd_ok_iff (a b c : Nat) : uadd a b = .ok c ↔ a + b < UMAX ∧ c = a + b := by
  simp only [uadd]; split <;> simp_all <;> omega

theorem usub_ok_iff (a b c : Nat) : usub a b = .ok c ↔ b ≤ a ∧ c = a - b := by
  simp only [usub]; split <;> simp_all <;> omega

theorem umul_ok_iff (a b c : Nat) : umul a b = .ok c ↔ a * b < UMAX ∧ c = a * b := by
  simp only [umul]; split <;> simp_all [eq_comm]

theorem udiv_ok_iff (a b c : Nat) : udiv a b = .ok c ↔ b ≠ 0 ∧ c = a / b := by
  simp only [udiv]; split <;> simp_all <;> omega

theorem toU128_ok_iff (a c : Nat) : toU128 a = .ok c ↔ a < UMAX ∧ c = a := by
  simp only [toU128]; split <;> simp_all [eq_comm]

theorem uadd_err (a b : Nat) (e : Err) (h : uadd a b = .error e) : e = .overflow := by
  simp only [uadd] at h; split at h <;> simp_all

theorem usub_err (a b : Nat) (e : Err) (h : usub a b = .error e) : e = .overflow := by
  simp only [usub] at h; split at h <;> simp_all

theorem umul_err (a b : Nat) (e : Err) (h : umul a b = .error e) : e = .overflow := by
  simp only [umul] at h; split at h <;> simp_all

theorem udiv_err (a b : Nat) (e : Err) (h : udiv a b = .error e) : e = .divideByZero := by
  simp only [udiv] at h; split at h <;> simp_all

theorem toU128_err (a : Nat) (e : Err) (h : toU128 a = .error e) : e = .conversionOverflow := by
  simp only [toU128] at h; split at h <;> simp_all

/-! Lemmas about the association-list storage maps. -/

theorem sumBal_setBal (l : List (String × Nat)) (k : String) (v : Nat) :
    sumBal (setBal l k v) + lookupBal l k = sumBal l + v := by
  induction l with
  | nil => simp [setBal, sumBal, lookupBal]
  | cons p rest ih =>
    obtain ⟨pk, pv⟩ := p
    by_cases hk : pk = k <;> simp [setBal, sumBal, lookupBal, hk] <;> omega

theorem lookupBal_le_sumBal (l : List (String × Nat)) (k : String) :
    lookupBal l k ≤ sumBal l := by
  induction l with
  | nil => simp [lookupBal, sumBal]
  | cons p rest ih =>
    obtain ⟨pk, pv⟩ := p
    by_cases hk : pk = k <;> simp [lookupBal, sumBal, hk] <;> omega

/-! Lemmas about the lock queue. -/

/-- The maturity test of the lock queue: a record is matured once
`timestamp.plus_seconds(LOCK_PERIOD)` is at or before the block time. -/
def maturedBy (now : Nat) (c : TokenRecord) : Bool :=
  plusSeconds c.timestamp LOCK_PERIOD ≤ now

theorem maturedScan_sum (now : Nat) (l : List TokenRecord) (acc u : Nat)
    (rest : List TokenRecord) (h : maturedScan now acc l = .ok (u, rest)) :
    acc + sumClaim l = u + sumClaim rest ∧ acc ≤ u := by
  induction l generalizing acc with
  | nil => simp [maturedScan] at h; simp [h.1, h.2]
  | cons c cs ih =>
    simp only [maturedScan] at h
    split at h
    · cases ha : uadd acc c.amount with
      | error e => rw [ha] at h; simp at h
      | ok acc' =>
        rw [ha] at h
        simp at h
        rw [uadd_ok_iff] at ha
        have := ih acc' h
        simp only [sumClaim]
        omega
    · simp at h
      simp [h.1, ← h.2]

theorem maturedScan_eq (now : Nat) (l : List TokenRecord) (acc : Nat)
    (hb : acc + sumClaim (l.takeWhile (maturedBy now)) < UMAX) :
    maturedScan now acc l =
      .ok (acc + sumClaim (l.takeWhile (maturedBy now)), l.dropWhile (maturedBy now)) := by
  induction l generalizing acc with
  | nil => simp [maturedScan, List.takeWhile, List.dropWhile, sumClaim]
  | cons c cs ih =>
    by_cases hc : plusSeconds c.timestamp LOCK_PERIOD ≤ now
    · have hm : maturedBy now c = true := by simp [maturedBy, hc]
      simp only [List.takeWhile_cons, List.dropWhile_cons, hm, if_true, sumClaim] at hb ⊢
      simp only [maturedScan, if_pos hc]
      have ha : uadd acc c.amount = .ok (acc + c.amount) := by
        rw [uadd_ok_iff]; constructor
        · have : sumClaim (List.takeWhile (maturedBy now) cs) ≥ 0 := Nat.zero_le _
          omega
        · rfl
      rw [ha, ok_bind, ih (acc + c.amount) (by omega), Nat.add_assoc]
    · have hm : maturedBy now c = false := by simp [maturedBy, hc]
      simp [maturedScan, if_neg hc, hm, sumClaim]

theorem consume_sum (l : List TokenRecord) (bw : Nat) :
    (consume l bw).2 + sumClaim (consume l bw).1 = sumClaim l := by
  induction l generalizing bw with
  | nil => simp [consume, sumClaim]
  | cons c cs ih =>
    simp only [consume]
    split
    · split
      · simp [sumClaim]
      · have := ih (bw - c.amount)
        simp [sumClaim]
        omega
    · simp [sumClaim]
      omega

/-! Characterisation of the paginated aggregation over a bid list that the
external queue returns in strictly ascending identifier order. -/

/-- Total pending stable amount of a bid-list segment. -/
def sumAmt (l : List Bid) : Nat := (l.map Bid.amount).sum

/-- Total pending liquidated collateral of a bid-list segment. -/
def sumCol (l : List Bid) : Nat := (l.map Bid.pending_liquidated_collateral).sum

/-- The external queue's documented pagination contract: bids come back in
strictly ascending identifier order, with identifiers above the initial
cursor `Some(0)`. -/
def sortedBids (bids : List Bid) : Prop :=
  List.Pairwise (fun a b => a.idx < b.idx) bids ∧ ∀ b ∈ bids, 0 < b.idx

instance (bids : List Bid) : Decidable (sortedBids bids) := by
  unfold sortedBids
  infer_instance

theorem sumAmt_append (a b : List Bid) : sumAmt (a ++ b) = sumAmt a + sumAmt b := by
  simp [sumAmt]

theorem sumCol_append (a b : List Bid) : sumCol (a ++ b) = sumCol a + sumCol b := by
  simp [sumCol]

theorem sumAmt_cons (x : Bid) (xs : List Bid) : sumAmt (x :: xs) = x.amount + sumAmt xs := by
  simp [sumAmt]

theorem sumCol_cons (x : Bid) (xs : List Bid) :
    sumCol (x :: xs) = x.pending_liquidated_collateral + sumCol xs := by
  simp [sumCol]

theorem sumPage_ok (xs : List Bid) (u b : Nat)
    (hu : u + sumAmt xs < UMAX) (hb : b + sumCol xs < UMAX) :
    sumPage xs u b = .ok (u + sumAmt xs, b + sumCol xs) := by
  induction xs generalizing u b with
  | nil => simp [sumPage, sumAmt, sumCol]
  | cons x xs ih =>
    rw [sumAmt_cons] at hu
    rw [sumCol_cons] at hb
    have h1 : toU128 x.amount = .ok x.amount := by rw [toU128_ok_iff]; omega
    have h2 : uadd u x.amount = .ok (u + x.amount) := by rw [uadd_ok_iff]; omega
    have h3 : toU128 x.pending_liquidated_collateral = .ok x.pending_liquidated_collateral := by
      rw [toU128_ok_iff]; omega
    have h4 : uadd b x.pending_liquidated_collateral = .ok (b + x.pending_liquidated_collateral) := by
      rw [uadd_ok_iff]; omega
    simp only [sumPage, h1, ok_bind, h2, h3, h4]
    rw [ih (u + x.amount) (b + x.pending_liquidated_collateral) (by omega) (by omega)]
    rw [sumAmt_cons, sumCol_cons]
    congr 2 <;> omega

theorem getLastD_mem : (l : List Bid) → (d : Bid) → l ≠ [] → l.getLastD d ∈ l
  | [a], _, _ => by simp [List.getLastD]
  | a :: b :: t, d, _ => by
      rw [List.getLastD_cons]
      exact List.mem_cons_of_mem a (getLastD_mem (b :: t) a (by simp))

theorem getLastD_indep : (l : List Bid) → (d1 d2 : Bid) → l ≠ [] →
    l.getLastD d1 = l.getLastD d2
  | [a], _, _, _ => by simp [List.getLastD]
  | a :: b :: t, d1, d2, _ => by
      rw [List.getLastD_cons d1 a (b :: t), List.getLastD_cons d2 a (b :: t)]

theorem mem_le_lastIdx (l : List Bid)
    (hp : List.Pairwise (fun a b => a.idx < b.idx) l) :
    ∀ x ∈ l, x.idx ≤ lastIdx l := by
  induction l with
  | nil => simp
  | cons a t ih =>
    intro x hx
    simp only [lastIdx, List.getLastD_cons]
    cases t with
    | nil =>
      have hxa : x = a := by simpa using hx
      simp [hxa, List.getLastD]
    | cons b t' =>
      rw [List.getLastD_cons]
      have hne : (b :: t') ≠ ([] : List Bid) := by simp
      rcases List.mem_cons.mp hx with hxa | hxt
      · have hmem := getLastD_mem (b :: t') defaultBid hne
        have hlt := (List.pairwise_cons.mp hp).1 _ hmem
        rw [List.getLastD_cons] at hlt
        rw [hxa]
        exact Nat.le_of_lt hlt
      · have hx' := ih (List.pairwise_cons.mp hp).2 x hxt
        simp only [lastIdx, List.getLastD_cons] at hx'
        exact hx'

theorem filter_after_page (bids : List Bid) (s : Nat)
    (hp : List.Pairwise (fun a b => a.idx < b.idx) bids)
    (h31 : 31 ≤ (bids.filter (fun x => s < x.idx)).length) :
    bids.filter
        (fun x => lastIdx ((bids.filter (fun x => s < x.idx)).take 31) < x.idx) =
      (bids.filter (fun x => s < x.idx)).drop 31 := by
  set rest := bids.filter (fun x => s < x.idx) with hrest
  set s2 := lastIdx (rest.take 31) with hs2
  have hrestp : List.Pairwise (fun a b => a.idx < b.idx) rest :=
    List.Pairwise.sublist (List.filter_sublist bids) hp
  have htake_ne : rest.take 31 ≠ [] := by
    have hlen : (rest.take 31).length = 31 := by
      rw [List.length_take]
      omega
    intro h
    rw [h] at hlen
    simp at hlen
  have hmem_take : (rest.take 31).getLastD defaultBid ∈ rest.take 31 :=
    getLastD_mem _ _ htake_ne
  have hmem_rest : (rest.take 31).getLastD defaultBid ∈ rest :=
    (List.take_sublist 31 rest).subset hmem_take
  have hs_lt_s2 : s < s2 := by
    have hmem2 : (rest.take 31).getLastD defaultBid ∈ bids.filter (fun x => s < x.idx) := by
      rw [← hrest]; exact hmem_rest
    have := (List.mem_filter.mp hmem2).2
    simp only [decide_eq_true_eq] at this
    simpa [hs2, lastIdx] using this
  have htake_le : ∀ x ∈ rest.take 31, x.idx ≤ s2 :=
    mem_le_lastIdx _ (List.Pairwise.sublist (List.take_sublist 31 rest) hrestp)
  have hcross : ∀ x ∈ rest.take 31, ∀ y ∈ rest.drop 31, x.idx < y.idx := by
    have h := hrestp
    rw [← List.take_append_drop 31 rest] at h
    exact fun x hx y hy => (List.pairwise_append.mp h).2.2 x hx y hy
  have hdrop_gt : ∀ y ∈ rest.drop 31, s2 < y.idx := by
    intro y hy
    have := hcross _ hmem_take y hy
    simpa [hs2, lastIdx] using this
  have hp_imp : ∀ x ∈ bids,
      (decide (s2 < x.idx) && decide (s < x.idx)) = decide (s2 < x.idx) := by
    intro x _
    by_cases h : s2 < x.idx
    · simp [h, Nat.lt_trans hs_lt_s2 h]
    · simp [h]
  have step1 : rest.filter (fun x => s2 < x.idx) = bids.filter (fun x => s2 < x.idx) := by
    rw [hrest, List.filter_filter]
    exact List.filter_congr hp_imp
  have step2 : rest.filter (fun x => s2 < x.idx) = rest.drop 31 := by
    conv_lhs => rw [← List.take_append_drop 31 rest]
    rw [List.filter_append]
    have h1 : (rest.take 31).filter (fun x => s2 < x.idx) = [] := by
      rw [List.filter_eq_nil_iff]
      intro a ha
      simp only [decide_eq_true_eq]
      have := htake_le a ha
      omega
    have h2 : (rest.drop 31).filter (fun x => s2 < x.idx) = rest.drop 31 := by
      rw [List.filter_eq_self]
      intro a ha
      simp only [decide_eq_true_eq]
      exact hdrop_gt a ha
    rw [h1, h2, List.nil_append]
  rw [← step1]
  exact step2

theorem sumBidsLoop_ok (bids : List Bid)
    (hp : List.Pairwise (fun a b => a.idx < b.idx) bids) :
    ∀ (fuel s u b : Nat),
      (bids.filter (fun x => s < x.idx)).length < fuel * 31 →
      u + sumAmt (bids.filter (fun x => s < x.idx)) < UMAX →
      b + sumCol (bids.filter (fun x => s < x.idx)) < UMAX →
      sumBidsLoop bids fuel s u b =
        .ok (u + sumAmt (bids.filter (fun x => s < x.idx)),
             b + sumCol (bids.filter (fun x => s < x.idx))) := by
  intro fuel
  induction fuel with
  | zero =>
    intro s u b hlen _ _
    omega
  | succ fuel ih =>
    intro s u b hlen hu hb
    set rest := bids.filter (fun x => s < x.idx) with hrest
    by_cases hshort : rest.length < 31
    · have hpage : bidsByUser bids s = rest := by
        rw [bidsByUser, ← hrest]
        exact List.take_of_length_le (by omega)
      simp only [sumBidsLoop, hpage]
      rw [sumPage_ok rest u b hu hb, ok_bind, if_pos hshort]
    · push_neg at hshort
      have hpage : bidsByUser bids s = rest.take 31 := by rw [bidsByUser, ← hrest]
      have hlen31 : (rest.take 31).length = 31 := by
        simp [List.length_take]
        omega
      have hsumA : sumAmt rest = sumAmt (rest.take 31) + sumAmt (rest.drop 31) := by
        conv_lhs => rw [← List.take_append_drop 31 rest]
        exact sumAmt_append _ _
      have hsumC : sumCol rest = sumCol (rest.take 31) + sumCol (rest.drop 31) := by
        conv_lhs => rw [← List.take_append_drop 31 rest]
        exact sumCol_append _ _
      simp only [sumBidsLoop, hpage]
      rw [sumPage_ok (rest.take 31) u b (by omega) (by omega), ok_bind,
        if_neg (by omega)]
      have hfilter := filter_after_page bids s hp (by rw [← hrest]; omega)
      rw [← hrest] at hfilter
      have hdroplen : (rest.drop 31).length = rest.length - 31 := by
        simp [List.length_drop]
      have ihx := ih (lastIdx (rest.take 31)) (u + sumAmt (rest.take 31))
        (b + sumCol (rest.take 31))
      rw [hfilter] at ihx
      rw [ihx (by omega) (by omega) (by omega)]
      congr 2 <;> omega

/-- The pagination contract of `sumBidsLoop` at the handlers' fuel: over a
sorted bid list it aggregates every bid exactly once. -/
theorem sumBidsLoop_full (bids : List Bid) (u b : Nat) (hs : sortedBids bids)
    (hu : u + sumAmt bids < UMAX) (hb : b + sumCol bids < UMAX) :
    sumBidsLoop bids (bids.length + 1) 0 u b = .ok (u + sumAmt bids, b + sumCol bids) := by
  have hfull : bids.filter (fun x => 0 < x.idx) = bids := by
    rw [List.filter_eq_self]
    intro a ha
    simpa using hs.2 a ha
  have hlen : (bids.filter (fun x => (0 : Nat) < x.idx)).length < (bids.length + 1) * 31 := by
    rw [hfull]
    omega
  have h := sumBidsLoop_ok bids hs.1 (bids.length + 1) 0 u b hlen
    (by rw [hfull]; exact hu) (by rw [hfull]; exact hb)
  rw [hfull] at h
  exact h

/-! Elimination principles for chasing `Except` binds, and classification
of the errors each piece of code can produce. -/

theorem bind_err {α β : Type} {f : Except Err α} {g : α → Except Err β} {e : Err}
    (h : (f >>= g) = .error e) :
    f = .error e ∨ ∃ v, f = .ok v ∧ g v = .error e := by
  cases f with
  | error e1 =>
    simp at h
    left
    rw [h]
  | ok v =>
    right
    exact ⟨v, rfl, by simpa using h⟩

theorem bind_ok_elim {α β : Type} {f : Except Err α} {g : α → Except Err β} {r : β}
    (h : (f >>= g) = .ok r) : ∃ v, f = .ok v ∧ g v = .ok r := by
  cases f with
  | error e1 => simp at h
  | ok v => exact ⟨v, rfl, by simpa using h⟩

/-- The errors of the plain arithmetic, conversion and pagination
machinery: everything except the contract's own typed rejections. -/
def hardErr (e : Err) : Prop :=
  e = .overflow ∨ e = .conversionOverflow ∨ e = .divideByZero ∨ e = .fuel

theorem sumPage_err (xs : List Bid) (u b : Nat) (e : Err)
    (h : sumPage xs u b = .error e) : hardErr e := by
  induction xs generalizing u b with
  | nil => simp [sumPage] at h
  | cons x xs ih =>
    simp only [sumPage] at h
    rcases bind_err h with h1 | ⟨a, _, h1⟩
    · exact Or.inr (Or.inl (toU128_err _ _ h1))
    rcases bind_err h1 with h2 | ⟨u', _, h2⟩
    · exact Or.inl (uadd_err _ _ _ h2)
    rcases bind_err h2 with h3 | ⟨c, _, h3⟩
    · exact Or.inr (Or.inl (toU128_err _ _ h3))
    rcases bind_err h3 with h4 | ⟨b', _, h4⟩
    · exact Or.inl (uadd_err _ _ _ h4)
    exact ih _ _ h4

theorem sumBidsLoop_err (bids : List Bid) (fuel s u b : Nat) (e : Err)
    (h : sumBidsLoop bids fuel s u b = .error e) : hardErr e := by
  induction fuel generalizing s u b with
  | zero =>
    simp [sumBidsLoop] at h
    simp [hardErr, h.symm]
  | succ fuel ih =>
    simp only [sumBidsLoop] at h
    rcases bind_err h with h1 | ⟨p, _, h1⟩
    · exact sumPage_err _ _ _ _ h1
    obtain ⟨u', b'⟩ := p
    split at h1
    · simp at h1
    · exact ih _ _ _ h1

theorem sumPendPage_err (xs : List Bid) (b : Nat) (e : Err)
    (h : sumPendPage xs b = .error e) : hardErr e := by
  induction xs generalizing b with
  | nil => simp [sumPendPage] at h
  | cons x xs ih =>
    simp only [sumPendPage] at h
    rcases bind_err h with h1 | ⟨c, _, h1⟩
    · exact Or.inr (Or.inl (toU128_err _ _ h1))
    rcases bind_err h1 with h2 | ⟨b', _, h2⟩
    · exact Or.inl (uadd_err _ _ _ h2)
    exact ih _ h2

theorem sumPendLoop_err (bids : List Bid) (fuel s b : Nat) (e : Err)
    (h : sumPendLoop bids fuel s b = .error e) : hardErr e := by
  induction fuel generalizing s b with
  | zero =>
    simp [sumPendLoop] at h
    simp [hardErr, h.symm]
  | succ fuel ih =>
    simp only [sumPendLoop] at h
    rcases bind_err h with h1 | ⟨b', _, h1⟩
    · exact sumPendPage_err _ _ _ h1
    split at h1
    · simp at h1
    · exact ih _ _ h1

theorem valuation_err (q : Querier) (u b : Nat) (e : Err)
    (h : valuation q u b = .error e) : hardErr e := by
  simp only [valuation] at h
  rcases bind_err h with h1 | ⟨p, _, h1⟩
  · exact sumBidsLoop_err _ _ _ _ _ _ h1
  obtain ⟨u', b'⟩ := p
  rcases bind_err h1 with h2 | ⟨v, _, h2⟩
  · exact Or.inr (Or.inl (toU128_err _ _ h2))
  rcases bind_err h2 with h3 | ⟨tc, _, h3⟩
  · exact Or.inl (uadd_err _ _ _ h3)
  simp at h3

theorem retractPage_err (xs : List Bid) (rem : Nat) (acc : List Msg) (e : Err)
    (h : retractPage xs rem acc = .error e) : hardErr e := by
  induction xs generalizing rem acc with
  | nil => simp [retractPage] at h
  | cons x xs ih =>
    simp only [retractPage] at h
    split at h
    · rcases bind_err h with h1 | ⟨a, _, h1⟩
      · exact Or.inr (Or.inl (toU128_err _ _ h1))
      exact ih _ _ h1
    · simp at h

theorem retractLoop_err (bids : List Bid) (fuel s rem : Nat) (acc : List Msg) (e : Err)
    (h : retractLoop bids fuel s rem acc = .error e) : hardErr e := by
  induction fuel generalizing s rem acc with
  | zero =>
    simp [retractLoop] at h
    simp [hardErr, h.symm]
  | succ fuel ih =>
    simp only [retractLoop] at h
    rcases bind_err h with h1 | ⟨p, _, h1⟩
    · exact retractPage_err _ _ _ _ h1
    obtain ⟨acc', rem'⟩ := p
    split at h1
    · simp at h1
    · exact ih _ _ _ h1

theorem maturedScan_err (now : Nat) (acc : Nat) (l : List TokenRecord) (e : Err)
    (h : maturedScan now acc l = .error e) : hardErr e := by
  induction l generalizing acc with
  | nil => simp [maturedScan] at h
  | cons c cs ih =>
    simp only [maturedScan] at h
    split at h
    · rcases bind_err h with h1 | ⟨a, _, h1⟩
      · exact Or.inl (uadd_err _ _ _ h1)
      exact ih _ h1
    · simp at h

theorem computeBwTarget_err (bt share rem wc supply : Nat) (e : Err)
    (h : computeBwTarget bt share rem wc supply = .error e) : hardErr e := by
  simp only [computeBwTarget] at h
  rcases bind_err h with h1 | ⟨p1, _, h1⟩
  · exact Or.inl (umul_err _ _ _ h1)
  rcases bind_err h1 with h2 | ⟨p2, _, h2⟩
  · exact Or.inl (umul_err _ _ _ h2)
  rcases bind_err h2 with h3 | ⟨q1, _, h3⟩
  · exact Or.inr (Or.inr (Or.inl (udiv_err _ _ _ h3)))
  rcases bind_err h3 with h4 | ⟨d1, _, h4⟩
  · exact Or.inl (usub_err _ _ _ h4)
  rcases bind_err h4 with h5 | ⟨inner, _, h5⟩
  · exact Or.inl (umul_err _ _ _ h5)
  rcases bind_err h5 with h6 | ⟨inner2, _, h6⟩
  · exact Or.inr (Or.inr (Or.inl (udiv_err _ _ _ h6)))
  rcases bind_err h6 with h7 | ⟨denom, _, h7⟩
  · exact Or.inl (usub_err _ _ _ h7)
  exact Or.inr (Or.inr (Or.inl (udiv_err _ _ _ h7)))

theorem tailUnlockPass_err (now : Nat) (st : Storage) (e : Err)
    (h : tailUnlockPass now st = .error e) : hardErr e := by
  simp only [tailUnlockPass] at h
  rcases bind_err h with h1 | ⟨p, _, h1⟩
  · exact maturedScan_err _ _ _ _ h1
  obtain ⟨u1, rest1⟩ := p
  split at h1
  · rcases bind_err h1 with h2 | ⟨l, _, h2⟩
    · exact Or.inl (usub_err _ _ _ h2)
    · simp at h2
  · simp at h1

theorem withdrawTailClaim_err (q : Querier) (now : Nat) (sender : String)
    (st : Storage) (bw : Nat) (msgs1 : List Msg) (e : Err)
    (h : withdrawTailClaim q now sender st bw msgs1 = .error e) : hardErr e := by
  simp only [withdrawTailClaim] at h
  rcases bind_err h with h1 | ⟨pend, _, h1⟩
  · exact sumPendLoop_err _ _ _ _ _ h1
  rcases bind_err h1 with h2 | ⟨l, _, h2⟩
  · exact Or.inl (uadd_err _ _ _ h2)
  split at h2
  · rcases bind_err h2 with h3 | ⟨l2, _, h3⟩
    · exact Or.inl (usub_err _ _ _ h3)
    · simp at h3
  · simp at h2

theorem withdrawTail_err (q : Querier) (now : Nat) (sender : String) (share : Nat)
    (st : Storage) (wc rem bt br : Nat) (e : Err)
    (h : withdrawTail q now sender share st wc rem bt br = .error e) : hardErr e := by
  simp only [withdrawTail] at h
  rcases bind_err h with h1 | ⟨bw0, _, h1⟩
  · exact computeBwTarget_err _ _ _ _ _ _ h1
  rcases bind_err h1 with h2 | ⟨st1, _, h2⟩
  · exact tailUnlockPass_err _ _ _ h2
  rcases bind_err h2 with h3 | ⟨sa, _, h3⟩
  · exact Or.inl (usub_err _ _ _ h3)
  split at h3 <;> (try split at h3) <;> (try split at h3) <;>
    first
      | exact withdrawTailClaim_err _ _ _ _ _ _ _ h3
      | simp at h3

theorem withdrawBody_err (q : Querier) (now : Nat) (sender : String)
    (share : Nat) (st : Storage) (e : Err)
    (h : withdrawBody q now sender share st = .error e) : hardErr e := by
  simp only [withdrawBody] at h
  rcases bind_err h with h1 | ⟨bal', _, h1⟩
  · exact Or.inl (usub_err _ _ _ h1)
  rcases bind_err h1 with h2 | ⟨p, _, h2⟩
  · exact valuation_err _ _ _ _ h2
  obtain ⟨total_cap, bluna⟩ := p
  rcases bind_err h2 with h3 | ⟨prod, _, h3⟩
  · exact Or.inl (umul_err _ _ _ h3)
  rcases bind_err h3 with h4 | ⟨wc, _, h4⟩
  · exact Or.inr (Or.inr (Or.inl (udiv_err _ _ _ h4)))
  rcases bind_err h4 with h5 | ⟨supply', _, h5⟩
  · exact Or.inl (usub_err _ _ _ h5)
  split at h5
  · simp at h5
  · rcases bind_err h5 with h6 | ⟨rem0, _, h6⟩
    · exact Or.inl (usub_err _ _ _ h6)
    rcases bind_err h6 with h7 | ⟨p7, _, h7⟩
    · exact retractLoop_err _ _ _ _ _ _ h7
    obtain ⟨rmsgs, rem⟩ := p7
    split at h7
    · rcases bind_err h7 with h8 | ⟨p8, _, h8⟩
      · exact withdrawTail_err _ _ _ _ _ _ _ _ _ _ h8
      · obtain ⟨st2, tmsgs⟩ := p8
        simp at h8
    · simp at h7

theorem withdraw_ust_err_class (q : Querier) (now : Nat) (sender : String)
    (share : Nat) (st : Storage) (e : Err)
    (h : withdraw_ust q now sender share st = .error e) :
    (e = .invalidate ∧ share = 0) ∨
    (e = .locked ∧ ∃ ts, lookupTime st.lastDeposit sender = some ts ∧
        now ≤ plusSeconds ts WITHDRAW_LOCK) ∨
    hardErr e := by
  simp only [withdraw_ust] at h
  split at h
  · simp at h
    exact Or.inl ⟨h.symm, by assumption⟩
  · split at h
    · rename_i ts hts
      split at h
      · simp at h
        rename_i hcond
        exact Or.inr (Or.inl ⟨h.symm, ts, hts, by omega⟩)
      · simp only [pure_eq, ok_bind] at h
        exact Or.inr (Or.inr (withdrawBody_err _ _ _ _ _ _ h))
    · simp only [pure_eq, ok_bind] at h
      exact Or.inr (Or.inr (withdrawBody_err _ _ _ _ _ _ h))

/-! Frame and invariant characterisations of successful runs. -/

/-- The two global accounting invariants of the vault (spec §8). -/
def balInv (st : Storage) : Prop := sumBal st.balances = st.state.total_supply

/-- Lock-queue side of the accounting invariant. -/
def lockInv (st : Storage) : Prop := sumClaim st.claimList = st.state.locked_b_luna

/-- Fields the collateral tail of `withdraw_ust` never touches. -/
def framePreserved (st st' : Storage) : Prop :=
  st'.balances = st.balances ∧ st'.permissions = st.permissions ∧
  st'.lastDeposit = st.lastDeposit ∧
  st'.state.total_supply = st.state.total_supply ∧
  st'.state.owner = st.state.owner ∧
  st'.state.swap_wallet = st.state.swap_wallet ∧
  st'.state.paused = st.state.paused

theorem sumClaim_append (a b : List TokenRecord) :
    sumClaim (a ++ b) = sumClaim a + sumClaim b := by
  induction a with
  | nil => simp [sumClaim]
  | cons c cs ih => simp [sumClaim, ih]; omega

theorem tailUnlockPass_ok (now : Nat) (st st' : Storage)
    (h : tailUnlockPass now st = .ok st') :
    framePreserved st st' ∧ (lockInv st → lockInv st') := by
  simp only [tailUnlockPass] at h
  rcases bind_ok_elim h with ⟨p, hscan, h1⟩
  obtain ⟨u1, rest1⟩ := p
  have hsum := maturedScan_sum now st.claimList 0 u1 rest1 hscan
  split at h1
  · rcases bind_ok_elim h1 with ⟨l, hl, h2⟩
    rw [usub_ok_iff] at hl
    simp at h2
    subst h2
    refine ⟨⟨rfl, rfl, rfl, rfl, rfl, rfl, rfl⟩, ?_⟩
    intro hinv
    simp only [lockInv] at hinv ⊢
    omega
  · simp at h1
    subst h1
    refine ⟨⟨rfl, rfl, rfl, rfl, rfl, rfl, rfl⟩, ?_⟩
    intro hinv
    simp only [lockInv] at hinv ⊢
    rename_i hu1
    simp at hu1
    subst hu1
    omega

theorem withdrawTailClaim_ok (q : Querier) (now : Nat) (sender : String)
    (st : Storage) (bw : Nat) (msgs1 : List Msg) (st' : Storage) (msgs : List Msg)
    (h : withdrawTailClaim q now sender st bw msgs1 = .ok (st', msgs)) :
    framePreserved st st' ∧ (lockInv st → lockInv st') ∧
    msgs = msgs1 ++ [Msg.claimLiquidations,
                     Msg.sendWallet st'.state.swap_wallet bw sender] := by
  simp only [withdrawTailClaim] at h
  rcases bind_ok_elim h with ⟨pend, hpend, h1⟩
  rcases bind_ok_elim h1 with ⟨l, hl, h2⟩
  rw [uadd_ok_iff] at hl
  have hcons := consume_sum (st.claimList ++ [TokenRecord.mk pend now]) bw
  split at h2
  · rcases bind_ok_elim h2 with ⟨l2, hl2, h3⟩
    rw [usub_ok_iff] at hl2
    simp at h3
    obtain ⟨h3a, h3b⟩ := h3
    subst h3a
    refine ⟨⟨rfl, rfl, rfl, rfl, rfl, rfl, rfl⟩, ?_, by rw [← h3b]⟩
    intro hinv
    simp only [lockInv] at hinv ⊢
    simp only [sumClaim_append, sumClaim] at hcons
    omega
  · simp at h2
    obtain ⟨h2a, h2b⟩ := h2
    subst h2a
    refine ⟨⟨rfl, rfl, rfl, rfl, rfl, rfl, rfl⟩, ?_, by rw [← h2b]⟩
    intro hinv
    simp only [lockInv] at hinv ⊢
    simp only [sumClaim_append, sumClaim] at hcons
    rename_i hu2
    simp at hu2
    omega

theorem withdrawTail_ok (q : Querier) (now : Nat) (sender : String) (share : Nat)
    (st : Storage) (wc rem bt br : Nat) (st' : Storage) (tmsgs : List Msg)
    (h : withdrawTail q now sender share st wc rem bt br = .ok (st', tmsgs)) :
    framePreserved st st' ∧ (lockInv st → lockInv st') := by
  simp only [withdrawTail] at h
  rcases bind_ok_elim h with ⟨bw0, hbw0, h1⟩
  rcases bind_ok_elim h1 with ⟨st1, hst1, h2⟩
  rcases bind_ok_elim h2 with ⟨sa, hsa, h3⟩
  have hu := tailUnlockPass_ok now st st1 hst1
  have frame_trans : ∀ a b c : Storage,
      framePreserved a b → framePreserved b c → framePreserved a c := by
    intro a b c hab hbc
    simp only [framePreserved] at *
    constructor
    · rw [hbc.1, hab.1]
    constructor
    · rw [hbc.2.1, hab.2.1]
    constructor
    · rw [hbc.2.2.1, hab.2.2.1]
    constructor
    · rw [hbc.2.2.2.1, hab.2.2.2.1]
    constructor
    · rw [hbc.2.2.2.2.1, hab.2.2.2.2.1]
    constructor
    · rw [hbc.2.2.2.2.2.1, hab.2.2.2.2.2.1]
    · rw [hbc.2.2.2.2.2.2, hab.2.2.2.2.2.2]
  split at h3 <;> (try split at h3) <;> (try split at h3) <;>
    first
      | (have hc := withdrawTailClaim_ok q now sender st1 _ _ st' tmsgs h3
         exact ⟨frame_trans _ _ _ hu.1 hc.1, fun hi => hc.2.1 (hu.2 hi)⟩)
      | (simp at h3
         obtain ⟨h3a, h3b⟩ := h3
         subst h3a
         exact ⟨hu.1, hu.2⟩)

theorem withdrawBody_ok (q : Querier) (now : Nat) (sender : String)
    (share : Nat) (st st' : Storage) (msgs : List Msg)
    (h : withdrawBody q now sender share st = .ok (st', msgs)) :
    share ≤ lookupBal st.balances sender ∧
    share ≤ st.state.total_supply ∧
    st.state.total_supply ≠ 0 ∧
    st'.balances = setBal st.balances sender (lookupBal st.balances sender - share) ∧
    st'.state.total_supply = st.state.total_supply - share ∧
    st'.permissions = st.permissions ∧
    st'.lastDeposit = st.lastDeposit ∧
    (lockInv st → lockInv st') ∧
    ∃ total_cap bluna wc,
      valuation q q.contractUsd q.contractBLuna = .ok (total_cap, bluna) ∧
      wc = total_cap * share / st.state.total_supply ∧
      ((wc ≤ q.contractUsd ∧ msgs = [Msg.bankSend sender wc] ∧
        st'.claimList = st.claimList ∧
        st'.state.locked_b_luna = st.state.locked_b_luna) ∨
       (q.contractUsd < wc ∧ ∃ rmsgs rem tmsgs,
          retractLoop q.bids (q.bids.length + 1) 0 (wc - q.contractUsd) [] = .ok (rmsgs, rem) ∧
          msgs = rmsgs ++ Msg.bankSend sender wc :: tmsgs ∧
          (rem = 0 → tmsgs = []))) := by
  simp only [withdrawBody] at h
  rcases bind_ok_elim h with ⟨bal', hbal, h1⟩
  rw [usub_ok_iff] at hbal
  obtain ⟨hble, hbal'⟩ := hbal
  subst hbal'
  rcases bind_ok_elim h1 with ⟨p, hval, h2⟩
  obtain ⟨total_cap, bluna⟩ := p
  rcases bind_ok_elim h2 with ⟨prod, hprod, h3⟩
  rw [umul_ok_iff] at hprod
  obtain ⟨hprodlt, hprodeq⟩ := hprod
  subst hprodeq
  rcases bind_ok_elim h3 with ⟨wc, hwc, h4⟩
  rw [udiv_ok_iff] at hwc
  obtain ⟨hsupne, hwceq⟩ := hwc
  rcases bind_ok_elim h4 with ⟨supply', hsup, h5⟩
  rw [usub_ok_iff] at hsup
  obtain ⟨hsuple, hsupeq⟩ := hsup
  subst hsupeq
  split at h5
  · rename_i hdirect
    simp at h5
    obtain ⟨h5a, h5b⟩ := h5
    subst h5a
    refine ⟨hble, hsuple, hsupne, rfl, rfl, rfl, rfl, fun hi => hi, total_cap, bluna, wc,
      hval, hwceq, Or.inl ⟨hdirect, h5b.symm, rfl, rfl⟩⟩
  · rename_i hshort
    rcases bind_ok_elim h5 with ⟨rem0, hrem0, h6⟩
    rw [usub_ok_iff] at hrem0
    obtain ⟨_, hrem0eq⟩ := hrem0
    subst hrem0eq
    rcases bind_ok_elim h6 with ⟨p7, hloop, h7⟩
    obtain ⟨rmsgs, rem⟩ := p7
    split at h7
    · rename_i hremnz
      rcases bind_ok_elim h7 with ⟨p8, htail, h8⟩
      obtain ⟨st2, tmsgs⟩ := p8
      simp at h8
      obtain ⟨h8a, h8b⟩ := h8
      subst h8a
      have hfr := withdrawTail_ok _ _ _ _ _ _ _ _ _ _ _ htail
      obtain ⟨⟨hfb, hfp, hfl, hfs, _, _, _⟩, hlk⟩ := hfr
      refine ⟨hble, hsuple, hsupne, by rw [hfb], by rw [hfs], by rw [hfp], by rw [hfl],
        ?_, total_cap, bluna, wc, hval, hwceq,
        Or.inr ⟨by omega, rmsgs, rem, tmsgs, hloop, h8b.symm, ?_⟩⟩
      · intro hi
        apply hlk
        simpa [lockInv] using hi
      · intro hrz
        simp [hrz] at hremnz
    · simp at h7
      obtain ⟨h7a, h7b⟩ := h7
      subst h7a
      refine ⟨hble, hsuple, hsupne, rfl, rfl, rfl, rfl, fun hi => hi, total_cap, bluna, wc,
        hval, hwceq, Or.inr ⟨by omega, rmsgs, rem, [], hloop, h7b.symm, fun _ => rfl⟩⟩

theorem withdraw_ust_ok (q : Querier) (now : Nat) (sender : String)
    (share : Nat) (st st' : Storage) (msgs : List Msg)
    (h : withdraw_ust q now sender share st = .ok (st', msgs)) :
    share ≠ 0 ∧
    (∀ ts, lookupTime st.lastDeposit sender = some ts →
      plusSeconds ts WITHDRAW_LOCK < now) ∧
    withdrawBody q now sender share st = .ok (st', msgs) := by
  simp only [withdraw_ust] at h
  split at h
  · simp at h
  · split at h
    · rename_i ts hts
      split at h
      · simp at h
      · rename_i hcond
        simp only [pure_eq, ok_bind] at h
        refine ⟨by assumption, ?_, h⟩
        intro ts2 hts2
        rw [hts] at hts2
        cases hts2
        omega
    · rename_i hnone
      simp only [pure_eq, ok_bind] at h
      refine ⟨by assumption, ?_, h⟩
      intro ts2 hts2
      rw [hnone] at hts2
      cases hts2

theorem deposit_ok (q : Querier) (now : Nat) (sender : String)
    (funds : List Coin) (st st' : Storage) (msgs : List Msg)
    (h : deposit q now sender funds st = .ok (st', msgs)) :
    ∃ c usd0 total_cap bluna minted,
      funds = [c] ∧ c.denom = "uusd" ∧ c.amount ≠ 0 ∧ st.state.paused = false ∧
      usub q.contractUsd c.amount = .ok usd0 ∧
      valuation q usd0 q.contractBLuna = .ok (total_cap, bluna) ∧
      (st.state.total_supply ≠ 0 → total_cap ≠ 0) ∧
      minted = (if st.state.total_supply = 0 then c.amount
                else c.amount * st.state.total_supply / total_cap) ∧
      st'.state.total_supply = st.state.total_supply + minted ∧
      st'.balances = setBal st.balances sender (lookupBal st.balances sender + minted) ∧
      st'.lastDeposit = setTime st.lastDeposit sender now ∧
      st'.permissions = st.permissions ∧ st'.claimList = st.claimList ∧
      st'.state.locked_b_luna = st.state.locked_b_luna ∧
      st'.state.owner = st.state.owner ∧ st'.state.paused = st.state.paused ∧
      st'.state.swap_wallet = st.state.swap_wallet ∧
      msgs = [] := by
  simp only [deposit] at h
  split at h
  · simp at h
  · rename_i hlen
    simp at hlen
    have hfunds : funds = [funds.headD (Coin.mk "" 0)] := by
      cases funds with
      | nil => simp at hlen
      | cons c rest =>
        cases rest with
        | nil => simp
        | cons d rest2 => simp at hlen
    split at h
    · simp at h
    · rename_i hcoin
      push_neg at hcoin
      obtain ⟨hdenom, hamt⟩ := hcoin
      split at h
      · simp at h
      · rename_i hpaused
        simp only [pure_eq, ok_bind] at h
        rcases bind_ok_elim h with ⟨usd0, husd0, h1⟩
        rcases bind_ok_elim h1 with ⟨p, hval, h2⟩
        obtain ⟨total_cap, bluna⟩ := p
        split at h2
        · rename_i hsupnz
          split at h2
          · simp at h2
          · rename_i htcnz
            rcases bind_ok_elim h2 with ⟨m, hmm, h3⟩
            rw [umul_ok_iff] at hmm
            simp only [pure_eq, ok_bind] at h3
            rcases bind_ok_elim h3 with ⟨supply', hsup, h4⟩
            rw [uadd_ok_iff] at hsup
            rcases bind_ok_elim h4 with ⟨bal', hbal, h5⟩
            rw [uadd_ok_iff] at hbal
            simp at h5
            obtain ⟨h5a, h5b⟩ := h5
            subst h5a
            have hsupnz2 : st.state.total_supply ≠ 0 := by simpa using hsupnz
            refine ⟨funds.headD (Coin.mk "" 0), usd0, total_cap, bluna, m / total_cap,
              hfunds, by simpa using hdenom, by simpa using hamt,
              by simpa using hpaused, husd0, hval, fun _ => by simpa using htcnz,
              by rw [if_neg hsupnz2, hmm.2], by simp [hsup.2], by simp [hbal.2],
              rfl, rfl, rfl, rfl, rfl, rfl, rfl, h5b⟩
        · rename_i hsupz
          have hsupz2 : st.state.total_supply = 0 := by omega
          try simp only [pure_eq, ok_bind] at h2
          rcases bind_ok_elim h2 with ⟨supply', hsup, h4⟩
          rw [uadd_ok_iff] at hsup
          rcases bind_ok_elim h4 with ⟨bal', hbal, h5⟩
          rw [uadd_ok_iff] at hbal
          simp at h5
          obtain ⟨h5a, h5b⟩ := h5
          subst h5a
          refine ⟨funds.headD (Coin.mk "" 0), usd0, total_cap, bluna,
            (funds.headD (Coin.mk "" 0)).amount,
            hfunds, by simpa using hdenom, by simpa using hamt,
            by simpa using hpaused, husd0, hval, fun hc => absurd hsupz2 hc,
            by rw [if_pos hsupz2], by simp [hsup.2], by simp [hbal.2],
            rfl, rfl, rfl, rfl, rfl, rfl, rfl, h5b⟩

theorem claim_liquidation_ok (q : Querier) (now : Nat) (st st' : Storage)
    (msgs : List Msg)
    (h : claim_liquidation q now st = .ok (st', msgs)) :
    ∃ pend, pend ≠ 0 ∧
      sumPendLoop q.bids (q.bids.length + 1) 0 0 = .ok pend ∧
      st'.balances = st.balances ∧
      st'.state.total_supply = st.state.total_supply ∧
      st'.permissions = st.permissions ∧ st'.lastDeposit = st.lastDeposit ∧
      st'.claimList = st.claimList ++ [TokenRecord.mk pend now] ∧
      st'.state.locked_b_luna = st.state.locked_b_luna + pend ∧
      msgs = [Msg.claimLiquidations] := by
  simp only [claim_liquidation] at h
  rcases bind_ok_elim h with ⟨pend, hpend, h1⟩
  split at h1
  · simp at h1
  · rename_i hpz
    simp only [pure_eq, ok_bind] at h1
    rcases bind_ok_elim h1 with ⟨l, hl, h2⟩
    rw [uadd_ok_iff] at hl
    simp at h2
    obtain ⟨h2a, h2b⟩ := h2
    subst h2a
    exact ⟨pend, by simpa using hpz, hpend, rfl, rfl, rfl, rfl, rfl, by simp [hl.2], h2b.symm⟩

theorem unlock_ok (now : Nat) (st st' : Storage) (msgs : List Msg)
    (h : unlock now st = .ok (st', msgs)) :
    ∃ u rest, maturedScan now 0 st.claimList = .ok (u, rest) ∧ u ≠ 0 ∧
      u ≤ st.state.locked_b_luna ∧
      st'.balances = st.balances ∧
      st'.state.total_supply = st.state.total_supply ∧
      st'.permissions = st.permissions ∧ st'.lastDeposit = st.lastDeposit ∧
      st'.claimList = rest ∧
      st'.state.locked_b_luna = st.state.locked_b_luna - u ∧
      msgs = [] := by
  simp only [unlock] at h
  rcases bind_ok_elim h with ⟨p, hscan, h1⟩
  obtain ⟨u, rest⟩ := p
  split at h1
  · simp at h1
  · rename_i huz
    simp only [pure_eq, ok_bind] at h1
    rcases bind_ok_elim h1 with ⟨l, hl, h2⟩
    rw [usub_ok_iff] at hl
    simp at h2
    obtain ⟨h2a, h2b⟩ := h2
    subst h2a
    exact ⟨u, rest, hscan, by simpa using huz, hl.1, rfl, rfl, rfl, rfl, rfl,
      by simp [hl.2], h2b⟩

theorem transfer_ownership_ok (sender newOwner : String) (st st' : Storage)
    (msgs : List Msg) (h : transfer_ownership sender newOwner st = .ok (st', msgs)) :
    st'.balances = st.balances ∧ st'.state.total_supply = st.state.total_supply ∧
    st'.claimList = st.claimList ∧
    st'.state.locked_b_luna = st.state.locked_b_luna := by
  simp only [transfer_ownership] at h
  split at h
  · simp at h
  · simp at h
    obtain ⟨h1, _⟩ := h
    subst h1
    exact ⟨rfl, rfl, rfl, rfl⟩

theorem set_permission_ok (sender address : String) (newPermission : Bool)
    (st st' : Storage) (msgs : List Msg)
    (h : set_permission sender address newPermission st = .ok (st', msgs)) :
    st'.balances = st.balances ∧ st'.state.total_supply = st.state.total_supply ∧
    st'.claimList = st.claimList ∧
    st'.state.locked_b_luna = st.state.locked_b_luna := by
  simp only [set_permission] at h
  split at h
  · simp at h
  · split at h
    · simp at h
    · simp at h
      obtain ⟨h1, _⟩ := h
      subst h1
      exact ⟨rfl, rfl, rfl, rfl⟩

theorem pause_resume_ok (sender : String) (pause : Bool) (st st' : Storage)
    (msgs : List Msg) (h : pause_resume sender pause st = .ok (st', msgs)) :
    st'.balances = st.balances ∧ st'.state.total_supply = st.state.total_supply ∧
    st'.claimList = st.claimList ∧
    st'.state.locked_b_luna = st.state.locked_b_luna := by
  simp only [pause_resume] at h
  split at h
  · simp at h
  · split at h
    · simp at h
    · simp at h
      obtain ⟨h1, _⟩ := h
      subst h1
      exact ⟨rfl, rfl, rfl, rfl⟩

theorem set_swap_wallet_ok (sender address : String) (st st' : Storage)
    (msgs : List Msg) (h : set_swap_wallet sender address st = .ok (st', msgs)) :
    st'.balances = st.balances ∧ st'.state.total_supply = st.state.total_supply ∧
    st'.claimList = st.claimList ∧
    st'.state.locked_b_luna = st.state.locked_b_luna := by
  simp only [set_swap_wallet] at h
  split at h
  · simp at h
  · simp at h
    obtain ⟨h1, _⟩ := h
    subst h1
    exact ⟨rfl, rfl, rfl, rfl⟩

theorem submit_bid_ok (q : Querier) (sender : String) (amount premiumSlot : Nat)
    (st st' : Storage) (msgs : List Msg)
    (h : submit_bid q sender amount premiumSlot st = .ok (st', msgs)) :
    st' = st := by
  simp only [submit_bid] at h
  split at h
  · simp at h
  · split at h
    · simp at h
      exact h.1.symm
    · simp at h

theorem activate_bid_ok (st st' : Storage) (msgs : List Msg)
    (h : activate_bid st = .ok (st', msgs)) : st' = st := by
  simp only [activate_bid] at h
  simp at h
  exact h.1.symm

theorem swap_ok (q : Querier) (st st' : Storage) (msgs : List Msg)
    (h : swap q st = .ok (st', msgs)) : st' = st := by
  simp only [swap] at h
  rcases bind_ok_elim h with ⟨sa, hsa, h1⟩
  split at h1
  · simp at h1
  · simp at h1
    exact h1.1.symm

/-! The shortfall retraction algorithm, stated the way the spec describes
it, and its equivalence with the paginated loop of the code. -/

/-- Modelled from the spec's words (claim C2 / spec §4.3), as the
refinement target for the code's paginated retraction loop: walk the bids
in order; a bid with pending amount strictly below the remaining shortfall
is retracted fully (`amount = None`) and reduces the shortfall; the first
bid with pending amount at least the remaining shortfall is retracted for
exactly the remainder (`amount = Some remainder`) and the walk stops.
Returns the retract commands and the shortfall left uncovered. -/
def retractPlan : Nat → List Bid → List Msg × Nat
  | rem, [] => ([], rem)
  | rem, b :: bs =>
      if b.amount < rem then
        (Msg.retract b.idx none :: (retractPlan (rem - b.amount) bs).1,
         (retractPlan (rem - b.amount) bs).2)
      else ([Msg.retract b.idx (some rem)], 0)

theorem retractPage_ok (xs : List Bid) (rem : Nat) (acc : List Msg)
    (hb : ∀ b ∈ xs, b.amount < UMAX) :
    retractPage xs rem acc =
      .ok (acc ++ (retractPlan rem xs).1, (retractPlan rem xs).2) := by
  induction xs generalizing rem acc with
  | nil => simp [retractPage, retractPlan]
  | cons b bs ih =>
    simp only [retractPage, retractPlan]
    split
    · have h1 : toU128 b.amount = .ok b.amount := by
        rw [toU128_ok_iff]
        exact ⟨hb b (by simp), rfl⟩
      rw [h1, ok_bind, ih _ _ (fun x hx => hb x (by simp [hx]))]
      simp
    · simp

theorem retractPlan_append (t d : List Bid) (rem : Nat) (hrem : 0 < rem) :
    retractPlan rem (t ++ d) =
      (if (retractPlan rem t).2 = 0
       then ((retractPlan rem t).1, 0)
       else ((retractPlan rem t).1 ++ (retractPlan (retractPlan rem t).2 d).1,
             (retractPlan (retractPlan rem t).2 d).2)) := by
  induction t generalizing rem with
  | nil =>
    simp only [List.nil_append, retractPlan]
    rw [if_neg (by omega)]
  | cons b t ih =>
    by_cases hlt : b.amount < rem
    · have hpos : 0 < rem - b.amount := by omega
      simp only [List.cons_append, retractPlan, if_pos hlt, List.append_eq]
      rw [ih _ hpos]
      by_cases hz : (retractPlan (rem - b.amount) t).2 = 0 <;> simp [hz]
    · simp only [List.cons_append, retractPlan, if_neg hlt]
      simp

theorem retractLoop_ok (bids : List Bid)
    (hp : List.Pairwise (fun a b => a.idx < b.idx) bids)
    (hbound : ∀ b ∈ bids, b.amount < UMAX) :
    ∀ (fuel s rem : Nat) (acc : List Msg),
      (bids.filter (fun x => s < x.idx)).length < fuel * 31 →
      0 < rem →
      retractLoop bids fuel s rem acc =
        .ok (acc ++ (retractPlan rem (bids.filter (fun x => s < x.idx))).1,
             (retractPlan rem (bids.filter (fun x => s < x.idx))).2) := by
  intro fuel
  induction fuel with
  | zero =>
    intro s rem acc hlen _
    omega
  | succ fuel ih =>
    intro s rem acc hlen hrem
    set rest := bids.filter (fun x => s < x.idx) with hrest
    have hsub : ∀ x ∈ rest, x ∈ bids := fun x hx =>
      (List.filter_sublist bids).subset (hrest ▸ hx)
    by_cases hshort : rest.length < 31
    · have hpage : bidsByUser bids s = rest := by
        rw [bidsByUser, ← hrest]
        exact List.take_of_length_le (by omega)
      simp only [retractLoop, hpage]
      rw [retractPage_ok rest rem acc (fun b hb => hbound b (hsub b hb)), ok_bind,
        if_pos (Or.inr hshort)]
    · push_neg at hshort
      have hpage : bidsByUser bids s = rest.take 31 := by rw [bidsByUser, ← hrest]
      have hlen31 : (rest.take 31).length = 31 := by
        simp [List.length_take]
        omega
      have hsplitplan := retractPlan_append (rest.take 31) (rest.drop 31) rem hrem
      rw [List.take_append_drop] at hsplitplan
      simp only [retractLoop, hpage]
      rw [retractPage_ok (rest.take 31) rem acc
        (fun b hb => hbound b (hsub b ((List.take_sublist 31 rest).subset hb))), ok_bind]
      by_cases hz : (retractPlan rem (rest.take 31)).2 = 0
      · rw [if_pos (Or.inl hz), hsplitplan, if_pos hz]
        simp [hz]
      · rw [if_neg (by simp [hz, hlen31])]
        have hfilter := filter_after_page bids s hp (by rw [← hrest]; omega)
        rw [← hrest] at hfilter
        have hdroplen : (rest.drop 31).length = rest.length - 31 := by
          simp [List.length_drop]
        have ihx := ih (lastIdx (rest.take 31)) (retractPlan rem (rest.take 31)).2
          (acc ++ (retractPlan rem (rest.take 31)).1)
        rw [hfilter] at ihx
        rw [ihx (by omega) (by omega), hsplitplan, if_neg hz]
        simp

/-- The pagination contract of the retraction loop at the handlers' fuel:
over a sorted bid list it is exactly the spec's sequential algorithm. -/
theorem retractLoop_full (bids : List Bid) (rem : Nat) (hs : sortedBids bids)
    (hbound : ∀ b ∈ bids, b.amount < UMAX) (hrem : 0 < rem) :
    retractLoop bids (bids.length + 1) 0 rem [] = .ok (retractPlan rem bids) := by
  have hfull : bids.filter (fun x => (0 : Nat) < x.idx) = bids := by
    rw [List.filter_eq_self]
    intro a ha
    simpa using hs.2 a ha
  have h := retractLoop_ok bids hs.1 hbound (bids.length + 1) 0 rem []
  rw [hfull] at h
  rw [h (by omega) hrem]
  simp

/-! Reachability: every contract state obtainable from instantiation by
successful handler invocations (failed invocations roll back entirely and
change nothing). -/

/-- One successful invocation of a public execute handler, relating the
storage before and after (outgoing messages are irrelevant to storage). -/
inductive Step : Storage → Storage → Prop where
  | ofDeposit (q : Querier) (now : Nat) (sender : String) (funds : List Coin)
      (st st' : Storage) (msgs : List Msg)
      (h : deposit q now sender funds st = .ok (st', msgs)) : Step st st'
  | ofWithdrawUst (q : Querier) (now : Nat) (sender : String) (share : Nat)
      (st st' : Storage) (msgs : List Msg)
      (h : withdraw_ust q now sender share st = .ok (st', msgs)) : Step st st'
  | ofSubmitBid (q : Querier) (sender : String) (amount premiumSlot : Nat)
      (st st' : Storage) (msgs : List Msg)
      (h : submit_bid q sender amount premiumSlot st = .ok (st', msgs)) : Step st st'
  | ofActivateBid (st st' : Storage) (msgs : List Msg)
      (h : activate_bid st = .ok (st', msgs)) : Step st st'
  | ofClaimLiquidation (q : Querier) (now : Nat) (st st' : Storage) (msgs : List Msg)
      (h : claim_liquidation q now st = .ok (st', msgs)) : Step st st'
  | ofTransferOwnership (sender newOwner : String) (st st' : Storage) (msgs : List Msg)
      (h : transfer_ownership sender newOwner st = .ok (st', msgs)) : Step st st'
  | ofUnlock (now : Nat) (st st' : Storage) (msgs : List Msg)
      (h : unlock now st = .ok (st', msgs)) : Step st st'
  | ofSwap (q : Querier) (st st' : Storage) (msgs : List Msg)
      (h : swap q st = .ok (st', msgs)) : Step st st'
  | ofPauseResume (sender : String) (pause : Bool) (st st' : Storage) (msgs : List Msg)
      (h : pause_resume sender pause st = .ok (st', msgs)) : Step st st'
  | ofSetPermission (sender address : String) (newPermission : Bool)
      (st st' : Storage) (msgs : List Msg)
      (h : set_permission sender address newPermission st = .ok (st', msgs)) : Step st st'
  | ofSetSwapWallet (sender address : String) (st st' : Storage) (msgs : List Msg)
      (h : set_swap_wallet sender address st = .ok (st', msgs)) : Step st st'

/-- States reachable from instantiation. -/
inductive Reachable : Storage → Prop where
  | init (owner swapWallet : String) : Reachable (instantiateSt owner swapWallet)
  | step {st st' : Storage} : Reachable st → Step st st' → Reachable st'

theorem step_preserves_inv (st st' : Storage) (hstep : Step st st')
    (hinv : balInv st ∧ lockInv st) : balInv st' ∧ lockInv st' := by
  obtain ⟨hb, hl⟩ := hinv
  simp only [balInv, lockInv] at *
  cases hstep with
  | ofDeposit q now sender funds st st' msgs h =>
    obtain ⟨c, usd0, tc, bl, minted, _, _, _, _, _, _, _, _, hsup, hbal, _, _, hcl, hlk, _, _, _, _⟩ :=
      deposit_ok q now sender funds st st' msgs h
    have hsb := sumBal_setBal st.balances sender (lookupBal st.balances sender + minted)
    constructor
    · rw [hsup, hbal]
      omega
    · rw [hcl, hlk]
      exact hl
  | ofWithdrawUst q now sender share st st' msgs h =>
    obtain ⟨_, _, hbody⟩ := withdraw_ust_ok q now sender share st st' msgs h
    obtain ⟨hble, hsle, _, hbal, hsup, _, _, hlki, hex⟩ :=
      withdrawBody_ok q now sender share st st' msgs hbody
    clear hex
    have hsb := sumBal_setBal st.balances sender (lookupBal st.balances sender - share)
    have hlb := lookupBal_le_sumBal st.balances sender
    constructor
    · rw [hbal, hsup]
      omega
    · exact hlki hl
  | ofSubmitBid q sender amount premiumSlot st st' msgs h =>
    rw [submit_bid_ok q sender amount premiumSlot st st' msgs h]
    exact ⟨hb, hl⟩
  | ofActivateBid st st' msgs h =>
    rw [activate_bid_ok st st' msgs h]
    exact ⟨hb, hl⟩
  | ofClaimLiquidation q now st st' msgs h =>
    obtain ⟨pend, _, _, hbal, hsup, _, _, hcl, hlk, _⟩ :=
      claim_liquidation_ok q now st st' msgs h
    constructor
    · rw [hbal, hsup]
      exact hb
    · rw [hcl, hlk, sumClaim_append]
      simp [sumClaim]
      omega
  | ofTransferOwnership sender newOwner st st' msgs h =>
    obtain ⟨hbal, hsup, hcl, hlk⟩ := transfer_ownership_ok sender newOwner st st' msgs h
    rw [hbal, hsup, hcl, hlk]
    exact ⟨hb, hl⟩
  | ofUnlock now st st' msgs h =>
    obtain ⟨u, rest, hscan, _, hule, hbal, hsup, _, _, hcl, hlk, _⟩ :=
      unlock_ok now st st' msgs h
    have hsum := maturedScan_sum now st.claimList 0 u rest hscan
    constructor
    · rw [hbal, hsup]
      exact hb
    · rw [hcl, hlk]
      omega
  | ofSwap q st st' msgs h =>
    rw [swap_ok q st st' msgs h]
    exact ⟨hb, hl⟩
  | ofPauseResume sender pause st st' msgs h =>
    obtain ⟨hbal, hsup, hcl, hlk⟩ := pause_resume_ok sender pause st st' msgs h
    rw [hbal, hsup, hcl, hlk]
    exact ⟨hb, hl⟩
  | ofSetPermission sender address newPermission st st' msgs h =>
    obtain ⟨hbal, hsup, hcl, hlk⟩ := set_permission_ok sender address newPermission st st' msgs h
    rw [hbal, hsup, hcl, hlk]
    exact ⟨hb, hl⟩
  | ofSetSwapWallet sender address st st' msgs h =>
    obtain ⟨hbal, hsup, hcl, hlk⟩ := set_swap_wallet_ok sender address st st' msgs h
    rw [hbal, hsup, hcl, hlk]
    exact ⟨hb, hl⟩

theorem reachable_inv (st : Storage) (h : Reachable st) : balInv st ∧ lockInv st := by
  induction h with
  | init owner swapWallet => exact ⟨rfl, rfl⟩
  | step hr hs ih => exact step_preserves_inv _ _ hs ih

/-! The claims. -/

/-- C4: Invariant of every reachable contract state: the sum of all
depositors' share balances equals `total_supply`, and the sum of all lock
records equals `locked_b_luna`; and every successful operation (deposit,
withdraw, claim_liquidation, unlock, and all remaining handlers) preserves
both equalities. -/
theorem c4_accounting_invariants :
    (∀ st : Storage, Reachable st →
      sumBal st.balances = st.state.total_supply ∧
      sumClaim st.claimList = st.state.locked_b_luna) ∧
    (∀ st st' : Storage,
      sumBal st.balances = st.state.total_supply →
      sumClaim st.claimList = st.state.locked_b_luna →
      Step st st' →
      sumBal st'.balances = st'.state.total_supply ∧
      sumClaim st'.claimList = st'.state.locked_b_luna) := by
  constructor
  · intro st h
    exact reachable_inv st h
  · intro st st' h1 h2 hs
    exact step_preserves_inv st st' hs ⟨h1, h2⟩

/-- Witness for C4 at a concrete reachable state (a fresh instantiation). -/
theorem c4_witness :
    sumBal (instantiateSt "owner" "wallet").balances =
      (instantiateSt "owner" "wallet").state.total_supply ∧
    sumClaim (instantiateSt "owner" "wallet").claimList =
      (instantiateSt "owner" "wallet").state.locked_b_luna :=
  c4_accounting_invariants.1 _ (Reachable.init "owner" "wallet")

/-- C7: the total-cap query returns idle stable balance, plus the sum of
all bids' pending stable amounts, plus the idle collateral and all bids'
pending collateral converted at the oracle rate — aggregated through the
page-size-31 cursor loop that terminates on a short page (that loop is
`sumBidsLoop`, invoked by `valuation` inside `query_total_cap`); with an
empty bid list the sums vanish and the idle-balance-only total remains;
and the query mutates nothing (its type consumes no `Storage` at all). -/
theorem c7_total_cap (q : Querier)
    (hs : sortedBids q.bids)
    (hu : q.contractUsd + sumAmt q.bids < UMAX)
    (hb : q.contractBLuna + sumCol q.bids < UMAX)
    (hv : (q.contractBLuna + sumCol q.bids) * q.rate / E18 < UMAX)
    (ht : (q.contractBLuna + sumCol q.bids) * q.rate / E18
            + (q.contractUsd + sumAmt q.bids) < UMAX) :
    query_total_cap q =
      .ok ((q.contractBLuna + sumCol q.bids) * q.rate / E18
            + (q.contractUsd + sumAmt q.bids)) := by
  simp only [query_total_cap, valuation]
  rw [sumBidsLoop_full q.bids q.contractUsd q.contractBLuna hs hu hb, ok_bind]
  have h1 : toU128 ((q.contractBLuna + sumCol q.bids) * q.rate / E18) =
      .ok ((q.contractBLuna + sumCol q.bids) * q.rate / E18) := by
    rw [toU128_ok_iff]
    exact ⟨hv, rfl⟩
  rw [h1, ok_bind]
  have h2 : uadd ((q.contractBLuna + sumCol q.bids) * q.rate / E18)
      (q.contractUsd + sumAmt q.bids) =
      .ok ((q.contractBLuna + sumCol q.bids) * q.rate / E18
            + (q.contractUsd + sumAmt q.bids)) := by
    rw [uadd_ok_iff]
    exact ⟨ht, rfl⟩
  rw [h2]
  rfl

/-- Witness for C7 on a concrete two-bid queue. -/
theorem c7_witness :
    query_total_cap
      { contractUsd := 100, contractBLuna := 50,
        bids := [Bid.mk 1 10 5 none, Bid.mk 2 20 7 none], rate := 2 * E18 } =
      .ok 254 :=
  (c7_total_cap
      { contractUsd := 100, contractBLuna := 50,
        bids := [Bid.mk 1 10 5 none, Bid.mk 2 20 7 none], rate := 2 * E18 }
      (by decide) (by decide) (by decide) (by decide) (by decide)).trans (by rfl)

/-- C8: the claim says a successful owner `SetPermission(address, p)` call
stores `p` under the target address and changes no other entry.  The code
(`src/contract.rs:695-710`) instead branches on the target's *old*
permission and removes (or re-saves the *old* value at) the *caller's*
key: right after instantiation, `set_permission "owner" "alice" true`
succeeds but leaves alice without the permission and strips the owner's
own entry.  The emitted attributes (`to = address`,
`submit_bid = new_permission`) document the intent the storage write
contradicts, so this is a code bug. -/
theorem c8_set_permission_bug :
    set_permission "owner" "alice" true (instantiateSt "owner" "wallet") =
      .ok ({ instantiateSt "owner" "wallet" with permissions := [] }, []) ∧
    lookupPerm (instantiateSt "owner" "wallet").permissions "alice" = false ∧
    lookupPerm (instantiateSt "owner" "wallet").permissions "owner" = true ∧
    lookupPerm ([] : List (String × Bool)) "alice" = false ∧
    lookupPerm ([] : List (String × Bool)) "owner" = false := by
  refine ⟨?_, by decide, by decide, by decide, by decide⟩
  rfl

/-- C9: a Deposit whose attached funds list does not have exactly one coin
fails as invalid input, independently of all storage and querier state
(even when one of several coins is a valid non-zero uusd coin). -/
theorem c9_deposit_funds_guard (q : Querier) (now : Nat) (sender : String)
    (funds : List Coin) (st : Storage) (h : funds.length ≠ 1) :
    deposit q now sender funds st = .error .invalidate := by
  simp only [deposit]
  rw [if_pos h]
  simp

/-- Witness for C9: two coins, the first a valid non-zero uusd coin. -/
theorem c9_witness :
    ([Coin.mk "uusd" 5, Coin.mk "uluna" 7].length ≠ 1) ∧
    deposit { contractUsd := 100, contractBLuna := 0, bids := [], rate := E18 } 0 "alice"
      [Coin.mk "uusd" 5, Coin.mk "uluna" 7] (instantiateSt "owner" "wallet") =
      .error .invalidate :=
  ⟨by decide, c9_deposit_funds_guard _ 0 "alice" _ _ (by decide)⟩

/-- C10: the payout division `total_cap * share / total_supply` in the
withdrawal handler has no explicit zero-divisor guard, but under the
preconditions (caller balance at least `share`, `share` non-zero, and the
share-accounting invariant `sumBal = total_supply`) the divisor is
non-zero; and whenever `total_supply` would be zero under the invariant,
the checked balance subtraction fails first (the run aborts with the
arithmetic error, before the division), so the division-by-zero branch is
unreachable. -/
theorem c10_division_unreachable (q : Querier) (now : Nat) (sender : String)
    (share : Nat) (st : Storage) :
    (share ≠ 0 → sumBal st.balances = st.state.total_supply →
      share ≤ lookupBal st.balances sender → st.state.total_supply ≠ 0) ∧
    (st.state.total_supply = 0 → sumBal st.balances = st.state.total_supply →
      share ≠ 0 →
      (∀ ts, lookupTime st.lastDeposit sender = some ts →
        plusSeconds ts WITHDRAW_LOCK < now) →
      withdraw_ust q now sender share st = .error .overflow) := by
  constructor
  · intro hs hsum hble
    have := lookupBal_le_sumBal st.balances sender
    omega
  · intro hsup hsum hs hlock
    have hzero : lookupBal st.balances sender = 0 := by
      have := lookupBal_le_sumBal st.balances sender
      omega
    have husb : usub (lookupBal st.balances sender) share = .error .overflow := by
      rw [hzero]
      simp only [usub]
      rw [if_neg (by omega)]
    simp only [withdraw_ust]
    rw [if_neg hs]
    cases hlt : lookupTime st.lastDeposit sender with
    | none =>
      simp only [hlt]
      simp only [pure_eq, ok_bind, withdrawBody]
      rw [husb]
      simp
    | some ts =>
      simp only [hlt]
      rw [if_neg (by have := hlock ts hlt; omega)]
      simp only [pure_eq, ok_bind, withdrawBody]
      rw [husb]
      simp

/-- Witness for C10 on a freshly instantiated vault (zero supply). -/
theorem c10_witness :
    withdraw_ust { contractUsd := 100, contractBLuna := 0, bids := [], rate := E18 }
      0 "alice" 1 (instantiateSt "owner" "wallet") = .error .overflow :=
  (c10_division_unreachable _ 0 "alice" 1 _).2 (by decide) (by decide) (by decide)
    (by intro ts hts; simp [instantiateSt, lookupTime] at hts)

/-- C1 counterexample: the claim says that when the idle stable balance is
below the payout and the bid list is exhausted before the shortfall
reaches zero, the whole withdrawal fails as Insufficient with no state
mutation and no commands.  Concretely: idle uusd 5, idle bLuna 15, price
1.0, no bids, supply 4, alice withdraws 2 shares.  The payout is 10 > 5,
the first (empty) page exhausts the bid list with shortfall 5 ≠ 0 — yet
the call succeeds, emits the full transfer plus a swap command, and
decrements `total_supply` from 4 to 2. -/
theorem c1_counterexample :
    withdraw_ust { contractUsd := 5, contractBLuna := 15, bids := [], rate := E18 }
      0 "alice" 2
      { state := { owner := "owner", total_supply := 4, locked_b_luna := 0,
                   swap_wallet := "wallet", paused := false },
        balances := [("alice", 2), ("bob", 2)], permissions := [("owner", true)],
        lastDeposit := [], claimList := [] } =
      .ok ({ state := { owner := "owner", total_supply := 2, locked_b_luna := 0,
                        swap_wallet := "wallet", paused := false },
             balances := [("alice", 0), ("bob", 2)], permissions := [("owner", true)],
             lastDeposit := [], claimList := [] },
           [Msg.bankSend "alice" 10, Msg.swapRouter 15 (some "alice")]) ∧
    (5 : Nat) < 10 ∧
    bidsByUser ([] : List Bid) 0 = [] ∧
    (10 - 5 : Nat) ≠ 0 :=
  ⟨rfl, by decide, rfl, by decide⟩

/-- C1 (amended): when the idle stable balance is below the payout and the
bid list is exhausted before the shortfall reaches zero, the withdrawal
does NOT fail as Insufficient — `withdraw_ust` can never return
Insufficient; instead every successful run emits at least the payout
transfer and decrements `total_supply` by the withdrawn share (the
remainder is sourced from collateral by the swap/claim tail). -/
theorem c1_no_insufficient (q : Querier) (now : Nat) (sender : String)
    (share : Nat) (st : Storage) :
    withdraw_ust q now sender share st ≠ .error .insufficient ∧
    (∀ st' msgs, withdraw_ust q now sender share st = .ok (st', msgs) →
      st'.state.total_supply = st.state.total_supply - share ∧ msgs ≠ []) := by
  constructor
  · intro h
    rcases withdraw_ust_err_class q now sender share st _ h with ⟨he, _⟩ | ⟨he, _⟩ | he
    · simp at he
    · simp at he
    · simp [hardErr] at he
  · intro st' msgs h
    obtain ⟨_, _, hbody⟩ := withdraw_ust_ok q now sender share st st' msgs h
    obtain ⟨_, _, _, _, hsup, _, _, _, tc, bl, wc, _, _, hbr⟩ :=
      withdrawBody_ok q now sender share st st' msgs hbody
    refine ⟨hsup, ?_⟩
    rcases hbr with ⟨_, hm, _, _⟩ | ⟨_, rm, rem, tl, _, hm, _⟩
    · rw [hm]
      simp
    · rw [hm]
      simp

/-- Witness for C1's amended statement at the counterexample scenario. -/
theorem c1_witness :
    withdraw_ust { contractUsd := 5, contractBLuna := 15, bids := [], rate := E18 }
        0 "alice" 2
        { state := { owner := "owner", total_supply := 4, locked_b_luna := 0,
                     swap_wallet := "wallet", paused := false },
          balances := [("alice", 2), ("bob", 2)], permissions := [("owner", true)],
          lastDeposit := [], claimList := [] } ≠ .error .insufficient ∧
    (({ state := { owner := "owner", total_supply := 2, locked_b_luna := 0,
                   swap_wallet := "wallet", paused := false },
        balances := [("alice", 0), ("bob", 2)], permissions := [("owner", true)],
        lastDeposit := [], claimList := [] } : Storage).state.total_supply = 4 - 2 ∧
     ([Msg.bankSend "alice" 10, Msg.swapRouter 15 (some "alice")] : List Msg) ≠ []) :=
  ⟨(c1_no_insufficient
      { contractUsd := 5, contractBLuna := 15, bids := [], rate := E18 } 0 "alice" 2
      { state := { owner := "owner", total_supply := 4, locked_b_luna := 0,
                   swap_wallet := "wallet", paused := false },
        balances := [("alice", 2), ("bob", 2)], permissions := [("owner", true)],
        lastDeposit := [], claimList := [] }).1,
   (c1_no_insufficient
      { contractUsd := 5, contractBLuna := 15, bids := [], rate := E18 } 0 "alice" 2
      { state := { owner := "owner", total_supply := 4, locked_b_luna := 0,
                   swap_wallet := "wallet", paused := false },
        balances := [("alice", 2), ("bob", 2)], permissions := [("owner", true)],
        lastDeposit := [], claimList := [] }).2
     { state := { owner := "owner", total_supply := 2, locked_b_luna := 0,
                  swap_wallet := "wallet", paused := false },
       balances := [("alice", 0), ("bob", 2)], permissions := [("owner", true)],
       lastDeposit := [], claimList := [] }
     [Msg.bankSend "alice" 10, Msg.swapRouter 15 (some "alice")] (by rfl)⟩

/-- C2: on a shortfall withdrawal the paginated retraction loop is exactly
the spec's sequential algorithm over the (ascending, page-31-aggregated)
bid list: full retract (`amount = None`) for every bid strictly below the
remaining shortfall, one partial retract for exactly the remainder at the
first bid covering it, then stop; and in `withdraw_ust` the payout
transfer command is appended right after the retraction commands (optional
collateral-sourcing commands follow it only when the list was exhausted). -/
theorem c2_shortfall_retraction :
    (∀ (bids : List Bid) (rem : Nat), sortedBids bids →
        (∀ b ∈ bids, b.amount < UMAX) → 0 < rem →
        retractLoop bids (bids.length + 1) 0 rem [] = .ok (retractPlan rem bids)) ∧
    (∀ (q : Querier) (now : Nat) (sender : String) (share : Nat)
        (st st' : Storage) (msgs : List Msg),
        withdraw_ust q now sender share st = .ok (st', msgs) →
        (∃ wc, msgs = [Msg.bankSend sender wc]) ∨
        (∃ wc rmsgs rem tail, q.contractUsd < wc ∧
          retractLoop q.bids (q.bids.length + 1) 0 (wc - q.contractUsd) [] =
            .ok (rmsgs, rem) ∧
          msgs = rmsgs ++ Msg.bankSend sender wc :: tail)) := by
  constructor
  · intro bids rem hs hb hr
    exact retractLoop_full bids rem hs hb hr
  · intro q now sender share st st' msgs h
    obtain ⟨_, _, hbody⟩ := withdraw_ust_ok q now sender share st st' msgs h
    obtain ⟨_, _, _, _, _, _, _, _, tc, bl, wc, _, _, hbr⟩ :=
      withdrawBody_ok q now sender share st st' msgs hbody
    rcases hbr with ⟨_, hm, _, _⟩ | ⟨hlt, rm, rem, tl, hloop, hm, _⟩
    · exact Or.inl ⟨wc, hm⟩
    · exact Or.inr ⟨wc, rm, rem, tl, hlt, hloop, hm⟩

/-- Witness for C2 on the spec's own example: bids `[{idx 1, 30}, {idx 2, 40}]`
with shortfall 50 retract bid 1 fully and bid 2 partially for 20. -/
theorem c2_witness :
    retractLoop [Bid.mk 1 30 0 none, Bid.mk 2 40 0 none] 3 0 50 [] =
      .ok ([Msg.retract 1 none, Msg.retract 2 (some 20)], 0) :=
  (c2_shortfall_retraction.1 [Bid.mk 1 30 0 none, Bid.mk 2 40 0 none] 50
      (by decide) (by decide) (by decide)).trans (by rfl)

/-- C3: a successful deposit of amount `x` values the vault after
subtracting `x` from the queried idle balance (`usub q.contractUsd x`
feeds `valuation`, the pre-deposit total cap); at zero supply exactly `x`
shares are minted, otherwise `x * total_supply / total_cap` with floor
division; and a zero pre-deposit total cap with non-zero supply fails with
the divide-by-zero error. -/
theorem c3_deposit_pricing (q : Querier) (now : Nat) (sender : String)
    (x : Nat) (st : Storage) :
    (∀ st' msgs, deposit q now sender [Coin.mk "uusd" x] st = .ok (st', msgs) →
      ∃ usd0 total_cap bluna,
        usub q.contractUsd x = .ok usd0 ∧
        valuation q usd0 q.contractBLuna = .ok (total_cap, bluna) ∧
        (st.state.total_supply ≠ 0 → total_cap ≠ 0) ∧
        st'.state.total_supply = st.state.total_supply +
          (if st.state.total_supply = 0 then x
           else x * st.state.total_supply / total_cap) ∧
        st'.balances = setBal st.balances sender (lookupBal st.balances sender +
          (if st.state.total_supply = 0 then x
           else x * st.state.total_supply / total_cap))) ∧
    (∀ usd0 bluna, x ≠ 0 → st.state.paused = false → st.state.total_supply ≠ 0 →
      usub q.contractUsd x = .ok usd0 →
      valuation q usd0 q.contractBLuna = .ok (0, bluna) →
      deposit q now sender [Coin.mk "uusd" x] st = .error .divideByZero) := by
  constructor
  · intro st' msgs h
    obtain ⟨c, usd0, total_cap, bluna, minted, hfunds, hdenom, hamt, _, husb, hval, htc,
      hminted, hsup, hbal, _, _, _, _, _, _, _, _⟩ :=
      deposit_ok q now sender [Coin.mk "uusd" x] st st' msgs h
    have hc : c = Coin.mk "uusd" x := by
      cases hfunds
      rfl
    subst hc
    simp only at husb hval hminted
    exact ⟨usd0, total_cap, bluna, husb, hval, htc, by rw [hsup, hminted], by rw [hbal, hminted]⟩
  · intro usd0 bluna hx hpause hsup husb hval
    simp only [deposit, List.headD_cons]
    rw [if_neg (by simp)]
    rw [if_neg (by simp [hx])]
    rw [if_neg (by simp [hpause])]
    simp only [pure_eq, ok_bind]
    rw [husb, ok_bind, hval, ok_bind]
    rw [if_pos (by simpa using hsup)]
    simp

/-- Witness for C3's divide-by-zero conjunct: deposit 5 uusd into a vault
whose whole balance is that deposit, with non-zero supply: the pre-deposit
total cap is 0 and the call fails with the divide-by-zero error. -/
theorem c3_witness :
    deposit { contractUsd := 5, contractBLuna := 0, bids := [], rate := E18 }
      0 "alice" [Coin.mk "uusd" 5]
      { state := { owner := "owner", total_supply := 1, locked_b_luna := 0,
                   swap_wallet := "wallet", paused := false },
        balances := [("bob", 1)], permissions := [("owner", true)],
        lastDeposit := [], claimList := [] } = .error .divideByZero :=
  (c3_deposit_pricing { contractUsd := 5, contractBLuna := 0, bids := [], rate := E18 }
      0 "alice" 5
      { state := { owner := "owner", total_supply := 1, locked_b_luna := 0,
                   swap_wallet := "wallet", paused := false },
        balances := [("bob", 1)], permissions := [("owner", true)],
        lastDeposit := [], claimList := [] }).2 0 0
    (by decide) (by rfl) (by decide) (by rfl) (by rfl)

/-- C5 counterexample: the claim says every call walks the queue, removes
every matured leading record, decrements by the matured sum, and fails as
Insufficient exactly when no leading record is matured.  But with a single
(matured, at the `== now` boundary) record of amount 0 — producible by the
collateral tail of `withdraw_ust`, which saves the aggregate pending
collateral without a zero guard — the code returns Insufficient instead of
removing the record. -/
theorem c5_counterexample :
    unlock (plusSeconds 0 LOCK_PERIOD)
      { state := { owner := "owner", total_supply := 0, locked_b_luna := 0,
                   swap_wallet := "wallet", paused := false },
        balances := [], permissions := [], lastDeposit := [],
        claimList := [TokenRecord.mk 0 0] } = .error .insufficient ∧
    maturedBy (plusSeconds 0 LOCK_PERIOD) (TokenRecord.mk 0 0) = true :=
  ⟨rfl, by decide⟩

/-- C5 (amended): `unlock` accumulates the matured leading records (the
maturity boundary is inclusive: `timestamp + lock_period == now` is
matured, `== now + 1` is not); it fails as Insufficient exactly when the
matured sum is zero (in particular when no leading record is matured), and
otherwise removes the matured prefix and decrements `locked_b_luna` by its
sum. -/
theorem c5_unlock_matured (now : Nat) (st : Storage) :
    (sumClaim (st.claimList.takeWhile (maturedBy now)) = 0 →
      unlock now st = .error .insufficient) ∧
    (sumClaim (st.claimList.takeWhile (maturedBy now)) ≠ 0 →
      sumClaim (st.claimList.takeWhile (maturedBy now)) < UMAX →
      sumClaim (st.claimList.takeWhile (maturedBy now)) ≤ st.state.locked_b_luna →
      unlock now st =
        .ok ({ st with
               claimList := st.claimList.dropWhile (maturedBy now)
               state.locked_b_luna :=
                 st.state.locked_b_luna - sumClaim (st.claimList.takeWhile (maturedBy now)) },
             [])) ∧
    (∀ r : TokenRecord, maturedBy (plusSeconds r.timestamp LOCK_PERIOD) r = true) ∧
    (∀ (r : TokenRecord) (t : Nat), plusSeconds r.timestamp LOCK_PERIOD = t + 1 →
      maturedBy t r = false) := by
  refine ⟨?_, ?_, ?_, ?_⟩
  · intro hz
    simp only [unlock]
    rw [maturedScan_eq now st.claimList 0 (by rw [hz]; decide), ok_bind]
    rw [if_pos (by omega)]
    rfl
  · intro hnz hlt hle
    simp only [unlock]
    rw [maturedScan_eq now st.claimList 0 (by omega), ok_bind]
    rw [if_neg (by omega)]
    have husb : usub st.state.locked_b_luna
        (0 + sumClaim (st.claimList.takeWhile (maturedBy now))) =
        .ok (st.state.locked_b_luna - sumClaim (st.claimList.takeWhile (maturedBy now))) := by
      rw [usub_ok_iff]
      omega
    simp only [pure_eq, ok_bind]
    rw [husb]
    simp
  · intro r
    simp [maturedBy]
  · intro r t h
    simp [maturedBy]
    omega

/-- Witness for C5's amended statement: one matured record of amount 5 at
the inclusive boundary unlocks in full. -/
theorem c5_witness :
    unlock (plusSeconds 0 LOCK_PERIOD)
      { state := { owner := "owner", total_supply := 0, locked_b_luna := 5,
                   swap_wallet := "wallet", paused := false },
        balances := [], permissions := [], lastDeposit := [],
        claimList := [TokenRecord.mk 5 0] } =
      .ok ({ state := { owner := "owner", total_supply := 0, locked_b_luna := 0,
                        swap_wallet := "wallet", paused := false },
             balances := [], permissions := [], lastDeposit := [],
             claimList := [] }, []) :=
  ((c5_unlock_matured (plusSeconds 0 LOCK_PERIOD)
      { state := { owner := "owner", total_supply := 0, locked_b_luna := 5,
                   swap_wallet := "wallet", paused := false },
        balances := [], permissions := [], lastDeposit := [],
        claimList := [TokenRecord.mk 5 0] }).2.1
    (by decide) (by decide) (by decide)).trans (by rfl)

/-- C6 counterexample: the claim says the cooldown rejection happens
exactly while `now < last_deposit + cooldown`, so at
`now == last_deposit + cooldown` the withdrawal should pass the check.
The code rejects on `last + cooldown >= now`, so at exact equality the
call still fails as Locked. -/
theorem c6_counterexample :
    withdraw_ust { contractUsd := 100, contractBLuna := 0, bids := [], rate := E18 }
      (plusSeconds 0 WITHDRAW_LOCK) "alice" 1
      { state := { owner := "owner", total_supply := 5, locked_b_luna := 0,
                   swap_wallet := "wallet", paused := false },
        balances := [("alice", 5)], permissions := [("owner", true)],
        lastDeposit := [("alice", 0)], claimList := [] } = .error .locked ∧
    ¬(plusSeconds 0 WITHDRAW_LOCK < plusSeconds 0 WITHDRAW_LOCK) :=
  ⟨rfl, by decide⟩

/-- C6 (amended): for a depositor with a recorded last-deposit timestamp
and a non-zero share, the withdrawal is rejected as Locked exactly when
`now ≤ last_deposit + cooldown` — the boundary `now == last + cooldown` is
still rejected, and strictly after it the call is never rejected as
Locked. -/
theorem c6_cooldown_boundary (q : Querier) (now : Nat) (sender : String)
    (share : Nat) (st : Storage) (ts : Nat) (hs : share ≠ 0)
    (hl : lookupTime st.lastDeposit sender = some ts) :
    withdraw_ust q now sender share st = .error .locked ↔
      now ≤ plusSeconds ts WITHDRAW_LOCK := by
  constructor
  · intro h
    rcases withdraw_ust_err_class q now sender share st _ h with ⟨_, hz⟩ | ⟨_, ts2, hts2, hc⟩ | he
    · exact absurd hz hs
    · rw [hl] at hts2
      cases hts2
      exact hc
    · simp [hardErr] at he
  · intro hc
    simp only [withdraw_ust, hl, if_neg hs]
    rw [if_pos (by omega)]
    simp

/-- Witness for C6's amended statement at the exact boundary. -/
theorem c6_witness :
    withdraw_ust { contractUsd := 50, contractBLuna := 0, bids := [], rate := E18 }
      (plusSeconds 7 WITHDRAW_LOCK) "alice" 2
      { state := { owner := "owner", total_supply := 5, locked_b_luna := 0,
                   swap_wallet := "wallet", paused := false },
        balances := [("alice", 5)], permissions := [("owner", true)],
        lastDeposit := [("alice", 7)], claimList := [] } = .error .locked :=
  (c6_cooldown_boundary { contractUsd := 50, contractBLuna := 0, bids := [], rate := E18 }
      (plusSeconds 7 WITHDRAW_LOCK) "alice" 2
      { state := { owner := "owner", total_supply := 5, locked_b_luna := 0,
                   swap_wallet := "wallet", paused := false },
        balances := [("alice", 5)], permissions := [("owner", true)],
        lastDeposit := [("alice", 7)], claimList := [] } 7
      (by decide) (by rfl)).mpr (by decide)
